import Mathlib

/-!
# Verification of the TPN subnet federation core

A shallow embedding of the `tpn-subnet` repository's lease stores, container
drivers, validator registry, version scorer and HTTP route behaviour, together
with theorems settling the frozen claims about them.

Conventions used throughout:

* Database tables are lists of row structures kept in ascending primary-key
  order (the order `ORDER BY id ASC` queries observe); SQL statements become
  list transformations.
* Timestamps are `Nat` milliseconds.
* Asynchronous JS functions that can throw are modelled with `Except String`
  or explicit outcome types.
* Named locks (`with_lock`) serialize their critical sections; in this
  sequential embedding a locked section is simply executed directly.
* External effects (HTTP fetches, subprocess results, randomness, the Dante
  daemon, the on-disk password files) enter as explicit oracle parameters.
-/

namespace TPN

/-! ## A miniature JavaScript value model

The validator-registry code (`node-stack/miner/modules/metagraph.js` and the
second version embedded after the validator `Dockerfile`) manipulates
duck-typed values: validator descriptor objects `{ uid, ip }`, arrays of bare
ip strings, `null` uids, `undefined` results of `Array.prototype.find`.  The
claims C3 and C9 hinge on exactly this dynamic typing, so we embed a small
JS value universe. -/

/-- A primitive JavaScript value.  The metagraph module only ever stores
primitives inside its objects, so object fields below are drawn from this
type. -/
inductive JLit where
  | vundef
  | vnull
  | vbool (b : Bool)
  | vnum (n : Int)
  | vstr (s : String)
deriving Repr, DecidableEq, Inhabited

/-- A JavaScript value: a primitive or a flat object. -/
inductive JVal where
  | lit (l : JLit)
  | vobj (fields : List (String × JLit))
deriving Repr, DecidableEq, Inhabited

namespace JVal

/-- Property access `v.name`.  Objects look the field up (absent fields give
`undefined`); all other values — in particular strings, which have no own
`ip` or `uid` property — give `undefined`.  Destructuring `const { ip } = v`
is the same operation. -/
def getField (v : JVal) (name : String) : JLit :=
  match v with
  | vobj fields =>
    match fields.find? (fun p => p.1 = name) with
    | some p => p.2
    | _ => JLit.vundef
  | lit _ => JLit.vundef

end JVal

namespace JLit

/-- JS truthiness of a primitive. -/
def truthy : JLit → Bool
  | vundef => false
  | vnull => false
  | vbool b => b
  | vnum n => n ≠ 0
  | vstr s => s ≠ ""

/-- Strict equality `===` between primitives (no coercions). -/
def strictEq : JLit → JLit → Bool
  | vundef, vundef => true
  | vnull, vnull => true
  | vbool a, vbool b => a = b
  | vnum a, vnum b => a = b
  | vstr a, vstr b => a = b
  | _, _ => false

/-- Loose equality `==` restricted to the comparisons the embedded code
performs (string/string, number/number, null/undefined family).  No
number/string coercion is ever exercised by the code under study. -/
def looseEq : JLit → JLit → Bool
  | vundef, vundef => true
  | vundef, vnull => true
  | vnull, vundef => true
  | vnull, vnull => true
  | vbool a, vbool b => a = b
  | vnum a, vnum b => a = b
  | vstr a, vstr b => a = b
  | _, _ => false

end JLit

/-- JS truthiness of a value: objects are always truthy. -/
def JVal.truthy : JVal → Bool
  | .lit l => l.truthy
  | .vobj _ => true

open JLit JVal

/-! ## Validator registry (C6 of the spec; claims C3 and C9)

Two versions of the registry exist in the repository:

* `node-stack/miner/modules/metagraph.js` (the miner-side version), and
* a second version embedded after `node-stack/validator/Dockerfile`
  (the validator-side version).

Both share the hard-coded fallback list. -/

/-- One entry of a validator list: `{ uid, ip }`.  `uid` is kept as a `JVal`
because the code distinguishes `null`, `0` and positive uids dynamically. -/
structure ValidatorEntry where
  uid : JLit
  ip : String
deriving Repr, DecidableEq

/-- The hard-coded fallback validator list, identical in both versions:
five live validators (uids 117, 4, 47, 212, 0) and two testnet validators
(uid `null`). -/
def validators_fallback : List ValidatorEntry :=
  [ ⟨vnum 117, "34.130.136.222"⟩,
    ⟨vnum 4, "185.141.218.102"⟩,
    ⟨vnum 47, "161.35.91.172"⟩,
    ⟨vnum 212, "192.150.253.122"⟩,
    ⟨vnum 0, "185.189.44.166"⟩,
    ⟨vnull, "165.232.93.107"⟩,
    ⟨vnull, "159.223.6.225"⟩ ]

/-- The `0.0.0.0` patch loop both versions run: any entry whose ip is
`0.0.0.0` has its ip overridden by the fallback entry with loosely-equal
uid, defaulting back to `0.0.0.0`. -/
def patch_zero_ips (vs : List ValidatorEntry) : List ValidatorEntry :=
  vs.map fun v =>
    if v.ip = "0.0.0.0" then
      { v with ip :=
          match validators_fallback.find? (fun w => looseEq w.uid v.uid) with
          | some w => w.ip
          | none => "0.0.0.0" }
    else v

/-- Miner-side `validator_ips()`: use the cached list when present (else the
fallback), patch `0.0.0.0` entries, then drop testnet (`uid !== null`) and
`0.0.0.0` entries and map each survivor to its bare ip string. -/
def validator_ips (cached : Option (List ValidatorEntry)) : List String :=
  let validators_to_use := patch_zero_ips (cached.getD validators_fallback)
  (validators_to_use.filter
    (fun v => !(strictEq v.uid vnull) && v.ip ≠ "0.0.0.0")).map (·.ip)

/-- Miner-side `validator_count()`: the length of `validator_ips()`. -/
def validator_count (cached : Option (List ValidatorEntry)) : Nat :=
  (validator_ips cached).length

/-- The naive ipv4 gate `unspoofable_ip.match( /\d*.\d*.\d*.\d*/ )`: the
digit groups may be empty and the dots match any character, so the regex
matches exactly when the string has three characters to spare — we model it
as a length check (newlines, which `.` would not match, do not occur in
remote addresses). -/
def naive_ipv4_match (s : String) : Bool :=
  3 ≤ s.length

/-- Miner-side `is_validator(request)` with `CI_MODE` unset, as a function of
the request's unspoofable remote address.  The code runs
`validator_ips().find( ( { ip } ) => ip === unspoofable_ip )`: the array
elements are bare strings, so the destructured `ip` is the string's `ip`
property — `undefined`.  The comparison is embedded verbatim through the
`JVal` model. -/
def is_validator (cached : Option (List ValidatorEntry))
    (unspoofable_ip : String) : JVal :=
  if !naive_ipv4_match unspoofable_ip then .lit (vbool false)
  else
    match ((validator_ips cached).map (fun s => JVal.lit (vstr s))).find?
        (fun element => strictEq (element.getField "ip") (vstr unspoofable_ip)) with
    | some v => v
    | none => .lit vundef

/-- Validator-side `get_validators()`: the cached list when it is non-empty
(after the `0.0.0.0` patch loop), the fallback list otherwise.  The full
list — testnet entries included — is returned. -/
def get_validators (cached : Option (List ValidatorEntry)) : List ValidatorEntry :=
  match cached with
  | none => validators_fallback
  | some vs => if vs.isEmpty then validators_fallback else patch_zero_ips vs

/-- Validator-side `validator_count()`:
`validators.filter( ( { uid } ) => !!uid ).length` — it keeps entries whose
uid is *truthy*, so `uid: 0` is dropped along with `uid: null`. -/
def validator_count_v (cached : Option (List ValidatorEntry)) : Nat :=
  ((get_validators cached).filter (fun v => JLit.truthy v.uid)).length

/-- Validator-side `is_validator(request)` with `CI_MODE` unset: finds the
first entry of the *full* validator list whose ip loosely equals the
unspoofable remote address and returns the entry (or `undefined`). -/
def is_validator_v (cached : Option (List ValidatorEntry))
    (unspoofable_ip : String) : JVal :=
  if !naive_ipv4_match unspoofable_ip then .lit (vbool false)
  else
    match (get_validators cached).find?
        (fun v => looseEq (vstr v.ip) (vstr unspoofable_ip)) with
    | some v => .vobj [("uid", v.uid), ("ip", vstr v.ip)]
    | none => .lit vundef

/-- `ip_from_req`: the unspoofable address is
`connection.remoteAddress || socket.remoteAddress` with the first `::ffff:`
occurrence removed; headers are not consulted.  We model a request by the
fields `ip_from_req` reads. -/
structure Req where
  connection_remoteAddress : Option String
  socket_remoteAddress : Option String
  /-- `req.ip` / `req.ips[0]` / the `x-forwarded-for` header — the spoofable
  side channel, recorded to state header-independence. -/
  headers_xff : Option String
deriving Repr, DecidableEq

/-- JS `String.prototype.replace` with a plain-string pattern: removes only
the first occurrence of `sep`. -/
def replace_first (s sep : String) : String :=
  match s.splitOn sep with
  | [] => s
  | [x] => x
  | x :: rest => x ++ String.intercalate sep rest

/-- `unspoofable_ip` as computed by `ip_from_req`. -/
def unspoofable_ip (r : Req) : Option String :=
  (match r.connection_remoteAddress with
   | some a => if a ≠ "" then some a else r.socket_remoteAddress
   | none => r.socket_remoteAddress).map
    (fun s => replace_first s "::ffff:")

/-! ## Node version scoring (`score_node_version`, claim C7)

The network and git I/O of `score_node_version` (fetching `GET /` on the
remote node, reading the local git state) enters as parameters; the function
below is its decision core on parsed `major.minor.patch` versions.  The
`semver` library calls are `semver.satisfies( remote, ">=" + min_semver )`,
which on plain `major.minor.patch` versions is the lexicographic order. -/

/-- A parsed `major.minor.patch` version. -/
structure SemVer where
  major : Nat
  minor : Nat
  patch : Nat
deriving Repr, DecidableEq

/-- Lexicographic `a ≤ b` on semantic versions — `semver.satisfies`
of `b` against the range `">=a"`. -/
def semver_le (a b : SemVer) : Bool :=
  (a.major < b.major) ||
  (a.major = b.major &&
    ((a.minor < b.minor) || (a.minor = b.minor && a.patch ≤ b.patch)))

/-- The `min_semver` computed by `score_node_version` with
`patch_grace_steps = 1`:
`major.minor.(patch-1)` when the patch can be lowered, else
`major.(minor-1).0` when the minor can be lowered, else the local version
itself (`X.0.0` releases require an exact version match). -/
def min_semver (loc : SemVer) : SemVer :=
  if 1 ≤ loc.patch then ⟨loc.major, loc.minor, loc.patch - 1⟩
  else if 0 < loc.minor then ⟨loc.major, loc.minor - 1, 0⟩
  else loc

/-- The decision core of `score_node_version`: given the local and remote
versions, whether the remote branch and hash match the local ones, and
whether the local last-commit date is within the 24 h grace window, compute
`version_valid`.  The sequencing mirrors the source: `exact_match` first,
falling back to the semver range check, then the grace-window override. -/
def score_node_version (loc remote : SemVer)
    (branch_match hash_match within_grace_period : Bool) : Bool :=
  let version_match := remote = loc
  let exact_match := branch_match && hash_match && version_match
  let semver_equal_or_within_grace :=
    if exact_match then exact_match
    else semver_le (min_semver loc) remote
  let semver_final :=
    if within_grace_period && !semver_equal_or_within_grace then true
    else semver_equal_or_within_grace
  semver_final

/-! ## `POST /worker` route (claim C10)

The route handler wraps its whole body in `try { ... } catch ( e ) {
return res.status( 200 ).json( { error: e.message } ) }`.  Each await inside
the body that can throw becomes an `Except String` oracle below; the
processing pipeline chains them in source order. -/

/-- The worker record assembled by the route (only the fields the claim
touches are kept abstract). -/
structure WorkerRecord where
  ip : String
  wireguard_config : Option String
  socks5_config : Option String
deriving Repr, DecidableEq

/-- Outcomes of the awaits inside the `POST /worker` handler body that can
throw or fail: geodata lookup, the backward-compatibility config fetch,
shape validation, the scoring validation, geodata cache warming and the
database write. -/
structure WorkerPostEnv where
  /-- `ip_geodata( unspoofable_ip )` — `(country_code, connection_type)` or a thrown error. -/
  ip_geodata : Except String (String × String)
  /-- `add_configs_to_workers` result for this worker when configs are missing. -/
  add_configs : Except String (Option String × Option String)
  /-- `is_valid_worker( worker )`. -/
  is_valid_worker : WorkerRecord → Bool
  /-- `validate_and_annotate_workers`: the `successes` list (possibly empty) or a thrown error. -/
  validate : WorkerRecord → Except String (List WorkerRecord)
  /-- `map_ips_to_geodata` cache warm. -/
  map_ips : Except String Unit
  /-- `write_workers` database persist. -/
  write_workers : Except String Unit
deriving Inhabited

/-- An HTTP response as the route produces it: a status code, whether the
JSON body contains `registered: true`, and the `error` field of the body if
present. -/
structure HttpResponse where
  status : Nat
  registered : Bool
  error : Option String
deriving Repr, DecidableEq

/-- The body of the `POST /worker` handler (everything inside the `try`), in
source order.  `Except.error` is a thrown exception. -/
def process_worker_post (env : WorkerPostEnv) (unspoofable : String)
    (wireguard_config socks5_config : Option String) :
    Except String WorkerRecord := do
  let _geodata ← env.ip_geodata
  let worker : WorkerRecord :=
    { ip := unspoofable, wireguard_config := wireguard_config,
      socks5_config := socks5_config }
  -- Backward compatibility: fetch configs directly when either is missing
  let worker ←
    if worker.wireguard_config.isNone || worker.socks5_config.isNone then do
      let (wg, s5) ← env.add_configs
      pure { worker with wireguard_config := wg, socks5_config := s5 }
    else pure worker
  if !env.is_valid_worker worker then
    throw "Invalid worker data received"
  let successes ← env.validate worker
  match successes with
  | [] => throw "Worker failed validation"
  | successful_worker :: _ => do
    if successful_worker.ip ≠ worker.ip then
      throw "Worker IP mismatch after validation, this should never happen"
    let _ ← env.map_ips
    let _ ← env.write_workers
    pure successful_worker

/-- The full route: `res.json( { registered: true, worker } )` on success
(express default status 200), `res.status( 200 ).json( { error } )` on any
thrown exception. -/
def handle_worker_post (env : WorkerPostEnv) (unspoofable : String)
    (wireguard_config socks5_config : Option String) : HttpResponse :=
  match process_worker_post env unspoofable wireguard_config socks5_config with
  | Except.ok _ => { status := 200, registered := true, error := none }
  | Except.error e => { status := 200, registered := false, error := some e }

/-! ## WireGuard lease store (`worker_wireguard.js`, claims C1 and C6)

The `worker_wireguard_configs` table has columns
`(id PK, expires_at, updated_at)`.  Rows are modelled as a list; `id` is the
primary key so at most one row per id exists (stated as a hypothesis where
needed).  `with_lock( 'register_wireguard_lease', fn )` serializes `fn`; in
this sequential embedding the locked body is executed directly. -/

/-- A row of `worker_wireguard_configs`. -/
structure WgRow where
  id : Nat
  expires_at : Nat
  updated_at : Nat
deriving Repr, DecidableEq

/-- The lease table. -/
abbrev WgTable := List WgRow

/-- `EXISTS ( SELECT 1 FROM worker_wireguard_configs wc WHERE wc.id = i )`. -/
def wg_has_id (t : WgTable) (i : Nat) : Bool :=
  t.any (fun r => r.id = i)

/-- The single set-difference query of `attempt_wireguard_lease_allocation`:
`SELECT gs.id FROM generate_series( start_id, end_id ) AS gs( id ) WHERE NOT
EXISTS ( ... ) ORDER BY gs.id ASC LIMIT 1` — the smallest id of the range
absent from the table.  `generate_series` is empty when `start_id > end_id`. -/
def find_available_id (t : WgTable) (start_id end_id : Nat) : Option Nat :=
  ((List.range' start_id (end_id + 1 - start_id)).filter
    (fun i => !wg_has_id t i)).head?

/-- `INSERT ... ON CONFLICT ( id ) DO UPDATE SET expires_at, updated_at`. -/
def wg_upsert (t : WgTable) (i expires_at now : Nat) : WgTable :=
  if wg_has_id t i then
    t.map (fun r => if r.id = i then
      { r with expires_at := expires_at, updated_at := now } else r)
  else t ++ [⟨i, expires_at, now⟩]

/-- `attempt_wireguard_lease_allocation( { start_id, end_id, expires_at } )`,
run under the `register_wireguard_lease` lock: find the first available id;
return `null` when there is none (or when the found id is the JS-falsy `0`,
which a range with `start_id ≥ 1` never produces); otherwise reserve it with
the upsert and return it.  The pair is (returned id, table afterwards). -/
def attempt_wireguard_lease_allocation (t : WgTable)
    (start_id end_id expires_at now : Nat) : Option Nat × WgTable :=
  match find_available_id t start_id end_id with
  | none => (none, t)
  | some i =>
    if i = 0 then (none, t)
    else (some i, wg_upsert t i expires_at now)

/-- The database effect of `cleanup_expired_wireguard_configs`: select the
ids with `expires_at < now` and delete those rows.  (Both the delete-mode
and the `BETA_REFRESH_LEASE_INSTEAD_OF_DELETE` refresh-mode branch end in
the same `DELETE FROM worker_wireguard_configs WHERE id = ANY( ids )`; the
container-side effects do not touch the table.  With `id` a primary key the
delete removes exactly the expired rows.) -/
def cleanup_expired_wireguard_configs (t : WgTable) (now : Nat) : WgTable :=
  t.filter (fun r => !(r.expires_at < now))

/-- `mark_config_as_free( { peer_id } )`:
`DELETE FROM worker_wireguard_configs WHERE id = $1`. -/
def mark_config_as_free (t : WgTable) (peer_id : Nat) : WgTable :=
  t.filter (fun r => !(r.id = peer_id))

/-- `register_wireguard_lease( { start_id, end_id, expires_at } )`: first
allocation attempt; on `null`, run the cleanup outside the lock and retry
exactly once; on a second `null`, throw (the code logs a diagnostic with the
soonest upcoming expiry and throws).  The `wireguard_server_ready` wait that
follows a successful allocation does not touch the table. -/
def register_wireguard_lease (t : WgTable)
    (start_id end_id expires_at now : Nat) : Except String Nat × WgTable :=
  match attempt_wireguard_lease_allocation t start_id end_id expires_at now with
  | (some i, t1) => (Except.ok i, t1)
  | (none, _) =>
    let t2 := cleanup_expired_wireguard_configs t now
    match attempt_wireguard_lease_allocation t2 start_id end_id expires_at now with
    | (some i, t3) => (Except.ok i, t3)
    | (none, t3) =>
      (Except.error
        s!"No available WireGuard config slots found between {start_id} and {end_id}",
       t3)

/-! ## `get_valid_wireguard_config` (wg-container.js, claim C6)

Oracles: `peer_slots` is the `count_wireguard_configs()` result,
`priority_slots` the `PRIORITY_SLOTS` environment value, `conf_text` the
`peerK.conf` file contents, and `feedback_status` the JSON `status` field
obtained from fetching the feedback url (`none` both when the fetch fails —
the catch returns `{}` — and when the body has no `status`). -/

/-- The result of `get_valid_wireguard_config`. -/
structure WgConfigResult where
  wireguard_config : String
  peer_id : Nat
  peer_slots : Nat
  expires_at : Nat
deriving Repr, DecidableEq

/-- Outcome of `get_valid_wireguard_config`: a config bundle, the
`{ cancelled: true }` marker, or a propagated exception. -/
inductive WgLeaseOutcome where
  | config (c : WgConfigResult)
  | cancelled
  | threw (msg : String)
deriving Repr, DecidableEq

/-- `get_valid_wireguard_config( { priority, lease_seconds, feedback_url } )`:
derive the id range from `priority` and the slot counts, register a lease,
read the config file, then — when a feedback url was passed — poll it and
on `status === 'complete'` free the config again and return
`{ cancelled: true }`. -/
def get_valid_wireguard_config (t : WgTable) (priority : Bool)
    (lease_seconds now peer_slots priority_slots : Nat) (conf_text : String)
    (has_feedback_url : Bool) (feedback_status : Option String) :
    WgLeaseOutcome × WgTable :=
  let expires_at := now + lease_seconds * 1000
  let safe_start := if priority_slots + 1 > peer_slots then 1 else priority_slots + 1
  let start_id := if priority then 1 else safe_start
  match register_wireguard_lease t start_id peer_slots expires_at now with
  | (Except.error msg, t1) => (.threw msg, t1)
  | (Except.ok peer_id, t1) =>
    if has_feedback_url && feedback_status = some "complete" then
      (.cancelled, mark_config_as_free t1 peer_id)
    else
      (.config ⟨conf_text, peer_id, peer_slots, expires_at⟩, t1)

/-! ## SOCKS5 lease store (`worker_socks5.js`, claims C4, C5, C8)

The `worker_socks5_configs` table
`( id PK, ip_address, port, username UNIQUE, password, available,
expires_at, updated )` is modelled as a list of rows kept in ascending-id
order (the order every `ORDER BY id ASC` query observes) together with the
serial-column counter for fresh ids.  Each SQL statement becomes one list
transformation; the operations also return the list of table snapshots
after each executed statement, so that invariants can be stated about every
intermediate state. -/

/-- A row of `worker_socks5_configs`. -/
structure SockRow where
  id : Nat
  ip_address : String
  port : Nat
  username : String
  password : String
  available : Bool
  expires_at : Nat
  updated : Nat
deriving Repr, DecidableEq

/-- An incoming SOCKS5 credential as passed to `write_socks` (and as loaded
from disk by `load_socks5_from_disk`): a record carrying all five expected
properties `ip_address, port, username, password, available` — the
validation filter of `write_socks` keeps exactly such records. -/
structure Sock where
  ip_address : String
  port : Nat
  username : String
  password : String
  available : Bool
deriving Repr, DecidableEq

/-- The table plus the serial counter. -/
structure SockDb where
  rows : List SockRow
  next_id : Nat
deriving Repr, DecidableEq

/-- Well-formedness maintained by SQL: ascending primary-key order, serial
ids below the counter, and the `UNIQUE` constraint on `username`. -/
def SockDbWf (db : SockDb) : Prop :=
  db.rows.Pairwise (fun a b => a.id < b.id) ∧
  (∀ r ∈ db.rows, r.id < db.next_id) ∧
  (db.rows.map (·.username)).Nodup

/-- `WHERE available = TRUE ORDER BY id ASC`. -/
def available_rows (rows : List SockRow) : List SockRow :=
  rows.filter (·.available)

/-- `count_available_socks( { skip_slots } )`: count of the subquery
`SELECT id FROM worker_socks5_configs WHERE available = TRUE ORDER BY id ASC
OFFSET skip_slots`. -/
def count_available_socks (rows : List SockRow) (skip_slots : Nat) : Nat :=
  ((available_rows rows).drop skip_slots).length

/-- The priority `SELECT * ... WHERE available = TRUE ORDER BY id ASC LIMIT
priority_slots`. -/
def priority_select (rows : List SockRow) (priority_slots : Nat) : List SockRow :=
  (available_rows rows).take priority_slots

/-- The standard-path `SELECT * ... WHERE available = TRUE ORDER BY id ASC
OFFSET offset LIMIT 1`. -/
def standard_select (rows : List SockRow) (offset : Nat) : Option SockRow :=
  ((available_rows rows).drop offset).head?

/-- The first `P` rows of the table in ascending-id order: the priority
pool of the claim. -/
def priority_pool (P : Nat) (rows : List SockRow) : List SockRow :=
  rows.take P

/-- Priority-path `UPDATE worker_socks5_configs SET expires_at = $1,
updated = $2 WHERE username = $3`. -/
def update_priority_expiry (rows : List SockRow)
    (username : String) (expires_at now : Nat) : List SockRow :=
  rows.map fun r =>
    if r.username = username then
      { r with expires_at := expires_at, updated := now }
    else r

/-- `UPDATE worker_socks5_configs SET available = FALSE, expires_at = $1,
updated = $2 WHERE username = $3 AND password = $4` — used both to mark a
broken sock and to register an exclusive lease. -/
def mark_unavailable (rows : List SockRow)
    (username password : String) (expires_at now : Nat) : List SockRow :=
  rows.map fun r =>
    if r.username = username && r.password = password then
      { r with available := false, expires_at := expires_at, updated := now }
    else r

/-- `[ ...new Map( valid_socks.map( sock => [ sock.username, sock ] )
).values() ]`: deduplicate by username.  A JS `Map` keeps the position of
the first insertion of a key and the value of the last, which is what the
fold computes. -/
def js_unique_by_username (socks : List Sock) : List Sock :=
  socks.foldl
    (fun acc s =>
      if acc.any (·.username = s.username) then
        acc.map (fun x => if x.username = s.username then s else x)
      else acc ++ [s])
    []

/-- One row of the multi-row upsert
`INSERT ... VALUES %L ON CONFLICT ( username ) DO UPDATE SET password =
EXCLUDED.password, updated = EXCLUDED.updated`: existing usernames keep
`ip_address, port, available, expires_at` and take the new password; new
usernames are inserted with `expires_at = 0` and a fresh serial id. -/
def upsert_sock (db : SockDb) (s : Sock) (now : Nat) : SockDb :=
  if db.rows.any (·.username = s.username) then
    { db with rows := db.rows.map fun r =>
        if r.username = s.username then
          { r with password := s.password, updated := now }
        else r }
  else
    { rows := db.rows ++
        [⟨db.next_id, s.ip_address, s.port, s.username, s.password,
          s.available, 0, now⟩],
      next_id := db.next_id + 1 }

/-- `write_socks( { socks } )` (worker_socks5.js): with no (valid) socks,
`DELETE FROM worker_socks5_configs`; otherwise deduplicate by username, run
the multi-row upsert, then `DELETE ... WHERE username NOT IN ( incoming )`.
Returns the final table and the snapshots after each executed statement. -/
def write_socks (db : SockDb) (socks : List Sock) (now : Nat) :
    SockDb × List SockDb :=
  if socks.isEmpty then
    let db' := { db with rows := [] }
    (db', [db'])
  else
    let unique_socks := js_unique_by_username socks
    let incoming := unique_socks.map (·.username)
    let db1 := unique_socks.foldl (fun d s => upsert_sock d s now) db
    let kept := db1.rows.filter (fun r => incoming.contains r.username)
    let db2 := { db1 with rows := kept }
    (db2, [db1, db2])

/-- The `DELETE ... WHERE username IN ( errored )` statement of the cleanup
(only executed when some regeneration failed). -/
def cleanup_delete_step (db : SockDb) (errored : List String) : SockDb :=
  if errored.isEmpty then db
  else { db with rows := db.rows.filter (fun r => !errored.contains r.username) }

/-- The `UPDATE ... SET available = TRUE, expires_at = 0, password = ...`
statement of the cleanup over the regenerated `(username, password)`
pairs. -/
def cleanup_refresh_step (db : SockDb) (regenerated : List (String × String))
    (now : Nat) : SockDb :=
  { db with rows := db.rows.map fun r =>
      match regenerated.lookup r.username with
      | some pw =>
        { r with available := true, expires_at := 0, password := pw, updated := now }
      | none => r }

/-- `cleanup_expired_dante_socks5_configs`: select rows with
`0 < expires_at ≤ now`; regenerate each one's password through the Dante
trigger-file protocol (outcome given by the oracle `regen`; `none` is a
failed regeneration).  Delete the failed usernames, then set
`available = TRUE, expires_at = 0, password = <new>` for the regenerated
ones.  `regenerate_dante_socks5_config` itself (dante-container.js, not
part of the sources under study) only drives the filesystem protocol and
touches no table, per the spec's §4.3. -/
def cleanup_expired_dante_socks5_configs (db : SockDb) (now : Nat)
    (regen : String → Option String) : SockDb × List SockDb :=
  let expired := db.rows.filter (fun r => 0 < r.expires_at && r.expires_at ≤ now)
  let errored := (expired.filter (fun r => (regen r.username).isNone)).map (·.username)
  let db1 := cleanup_delete_step db errored
  let regenerated := expired.filterMap
    (fun r => (regen r.username).map (fun pw => (r.username, pw)))
  if regenerated.isEmpty then (db1, [db1])
  else
    let db2 := cleanup_refresh_step db1 regenerated now
    (db2, [db1, db2])

/-- The priority branch of `get_socks5_config`: select the first
`priority_slots` available rows, pick a random one (`pick` is the random
draw), test it (`test_ok`), on failure regenerate its password
(`regen_result`; `none` aborts with no table write), then update only
`expires_at` and `updated` of the chosen username.  Returns the chosen row
(before the update, as the code returns the selected JS object), the final
table and the statement snapshots. -/
def get_socks5_config_priority (db : SockDb)
    (expires_at now priority_slots pick : Nat)
    (test_ok : Bool) (regen_result : Option String) :
    Option SockRow × SockDb × List SockDb :=
  let priority_configs := priority_select db.rows priority_slots
  match priority_configs.get? (pick % priority_configs.length) with
  | none => (none, db, [])
  | some sock =>
    if !test_ok && regen_result.isNone then (none, db, [])
    else
      let updated := update_priority_expiry db.rows sock.username expires_at now
      let db' := { db with rows := updated }
      (some sock, db', [db'])

/-- Oracles consumed by one attempt of the standard-path while loop. -/
structure StandardOracles where
  /-- `test_socks5_connection` outcome at a given attempt for a given row. -/
  test : Nat → SockRow → Bool
  /-- the regeneration outcomes the in-loop cleanup observes at a given attempt. -/
  regen : Nat → String → Option String
  /-- the password-directory contents `load_socks5_from_disk` reads at a
  given attempt (it writes them through to `write_socks`). -/
  disk : Nat → List Sock
deriving Inhabited

/-- The `while( attempts < max_attempts && !sock )` loop of the standard
branch: select with the priority offset; when nothing is available run the
cleanup and retry; when the selected sock fails its test, mark it
unavailable and reload the table from disk; stop on a working sock.  `fuel`
starts at `max_attempts`. -/
def standard_loop (offset now : Nat) (ors : StandardOracles) :
    Nat → SockDb → Nat → Option SockRow × List SockDb
  | 0, _, _ => (none, [])
  | fuel + 1, db, attempt =>
    match standard_select db.rows offset with
    | none =>
      let cl := cleanup_expired_dante_socks5_configs db now (ors.regen attempt)
      let rest := standard_loop offset now ors fuel cl.1 (attempt + 1)
      (rest.1, cl.2 ++ rest.2)
    | some available_sock =>
      if ors.test attempt available_sock then (some available_sock, [])
      else
        let marked := mark_unavailable db.rows available_sock.username
          available_sock.password now now
        let db1 := { db with rows := marked }
        let ws := write_socks db1 (ors.disk attempt) now
        let rest := standard_loop offset now ors fuel ws.1 (attempt + 1)
        (rest.1, db1 :: (ws.2 ++ rest.2))

/-- The standard (non-priority) branch of `get_socks5_config`, run under the
`get_socks5_config_working` cache lock: compute `max_attempts` from
`count_available_socks`, run the loop, and on success mark the found sock
unavailable with the lease `expires_at` (the `.used` marker file write has
no table effect).  A `none` first component is the thrown
`No available SOCKS5 configs found` error. -/
def get_socks5_config_standard (db : SockDb)
    (expires_at now priority_slots : Nat) (ors : StandardOracles) :
    Option SockRow × SockDb × List SockDb :=
  let offset := priority_slots
  let max_attempts := count_available_socks db.rows offset
  let lp := standard_loop offset now ors max_attempts db 0
  let dbf := lp.2.getLastD db
  match lp.1 with
  | none => (none, dbf, lp.2)
  | some sock =>
    let leased := mark_unavailable dbf.rows sock.username sock.password expires_at now
    let db' := { dbf with rows := leased }
    (some sock, db', lp.2 ++ [db'])

/-- One lease-store operation of the claim: `get_socks5_config` in priority
or standard mode, or `cleanup_expired_dante_socks5_configs`; each carries
its oracle inputs.  `priority_slots` is shared configuration
(`PRIORITY_SLOTS`) and is supplied once to `run_sock_ops`. -/
inductive SockOp where
  | priority (expires_at now pick : Nat) (test_ok : Bool)
      (regen_result : Option String)
  | standard (expires_at now : Nat) (ors : StandardOracles)
  | cleanup (now : Nat) (regen : String → Option String)

/-- Run one operation, returning the final table and the snapshots after
each executed statement. -/
def run_sock_op (P : Nat) (db : SockDb) : SockOp → SockDb × List SockDb
  | .priority expires_at now pick test_ok regen_result =>
    (get_socks5_config_priority db expires_at now P pick test_ok regen_result).2
  | .standard expires_at now ors =>
    (get_socks5_config_standard db expires_at now P ors).2
  | .cleanup now regen => cleanup_expired_dante_socks5_configs db now regen

/-- Run a sequence of operations, concatenating the snapshot traces. -/
def run_sock_ops (P : Nat) (db : SockDb) : List SockOp → SockDb × List SockDb
  | [] => (db, [])
  | op :: ops =>
    let step := run_sock_op P db op
    let rest := run_sock_ops P step.1 ops
    (rest.1, step.2 ++ rest.2)

/-- One table transition is priority-safe when no row of the current
priority pool (the first `P` rows by ascending id) that is available goes
unavailable: any row of the next state with the same id is still
available. -/
def sock_step_safe (P : Nat) (t u : SockDb) : Prop :=
  ∀ r ∈ priority_pool P t.rows, r.available = true →
    ∀ q ∈ u.rows, q.id = r.id → q.available = true

/-- A snapshot trace is priority-safe when every consecutive transition is. -/
def sock_trace_safe (P : Nat) : SockDb → List SockDb → Prop
  | _, [] => True
  | t, u :: rest => sock_step_safe P t u ∧ sock_trace_safe P u rest

/-! ## `replace_wireguard_config` (wg-container.js, claim C2)

The atomic key rotation for one peer.  The state a call touches is: the
client conf file `peerK/peerK.conf`, the three key files of the peer folder,
the server conf `wg0.conf`, the running `wg0` interface's peer table, and
the `worker_wireguard_configs` row.  The client conf is abstracted to the
fields the code reads and rewrites (the `Address` line and the two key
lines); the interface is a list of peer entries keyed by public key.

Every awaited step of the source can throw; `fail_at = some k` injects a
thrown exception at the k-th awaited step (steps that the code skips behind
a guard cannot fail).  Key generation also throws intrinsically when the
daemon returns empty output, reading a missing conf file throws, and a conf
without an extractable `Address` throws. -/

/-- A generated key triple. -/
structure WgKeys where
  private_key : String
  public_key : String
  preshared_key : String
deriving Repr, DecidableEq

/-- The peer's client conf file, abstracted to the parts the code touches:
the `Address = ...` value (none when the regex finds no line, empty after
trimming whitespace-only), the `PrivateKey` and `PresharedKey` values, and
the untouched remainder. -/
structure ClientConf where
  address : Option String
  private_key : String
  preshared_key : String
  rest : String
deriving Repr, DecidableEq

/-- One `[Peer]` entry of the running interface. -/
structure IfacePeer where
  public_key : String
  preshared_key : String
  allowed_ips : String
deriving Repr, DecidableEq

/-- The full state `replace_wireguard_config` operates on. -/
structure WgPeerState where
  client_conf : Option ClientConf
  privatekey_file : String
  publickey_file : String
  presharedkey_file : String
  server_conf : String
  iface : List IfacePeer
  db : WgTable
deriving Repr, DecidableEq

/-- `client_ip.includes( '/' ) ? client_ip : client_ip + '/32'`. -/
def cidr_of (ip : String) : String :=
  if ip.data.contains '/' then ip else ip ++ "/32"

/-- `wg set wg0 peer <key> remove`. -/
def iface_remove (ps : List IfacePeer) (key : String) : List IfacePeer :=
  ps.filter (fun p => !(p.public_key = key))

/-- `wg set wg0 peer <key> preshared-key <file> allowed-ips <cidr>`:
replaces any entry under `key` with the given attributes. -/
def iface_set (ps : List IfacePeer) (key psk allowed : String) : List IfacePeer :=
  iface_remove ps key ++ [⟨key, psk, allowed⟩]

/-- `ps.find( p => p.public_key === key )` — the interface's entry under a
public key. -/
def iface_find (ps : List IfacePeer) (key : String) : Option IfacePeer :=
  ps.find? (fun p => p.public_key = key)

/-- The server-conf rewrite (`updated_server_config`): the old public and
preshared keys are replaced by the new ones.  The textual details of the
regex rewrites are irrelevant to the rollback claim; a concrete stand-in
with the same shape is used. -/
def rewrite_server_conf (conf old_pub new_pub old_psk new_psk : String) : String :=
  ((conf.replace ("PublicKey = " ++ old_pub) ("PublicKey = " ++ new_pub)).replace
    ("PresharedKey = " ++ old_psk) ("PresharedKey = " ++ new_psk))

/-- The `original_*` snapshot variables and the `interface_modified` flag as
they stand when an exception is thrown. -/
structure Captures where
  original_config : Option ClientConf
  original_private_key : Option String
  original_public_key : Option String
  original_preshared_key : Option String
  original_server_config : Option String
  interface_modified : Bool
deriving Repr, DecidableEq

/-- The steps of the main `try` body after the interface modification
point, split out to avoid duplicating the tail across the
`if( original_public_key )` branch: add the new peer (A11), guard-check and
rewrite the server conf (A12), delete the lease row (A13, which never
throws — `mark_config_as_free` catches internally). -/
def run_replace_after_remove (st : WgPeerState) (c : Captures) (peer_id : Nat)
    (ks : WgKeys) (client_ip original_public_key original_preshared_key
    original_server_config : String) (fail_at : Option Nat) :
    (WgPeerState × Captures) ⊕ WgPeerState :=
  if fail_at = some 11 then Sum.inl (st, c) else
  let new_iface := iface_set st.iface ks.public_key st.presharedkey_file (cidr_of client_ip)
  let st6 := { st with iface := new_iface }
  if original_server_config = "" ∨ original_public_key = "" ∨
      original_preshared_key = "" then
    -- `throw new Error( 'Missing original config data ...' )`
    Sum.inl (st6, c)
  else if fail_at = some 12 then Sum.inl (st6, c) else
  let new_server_conf := rewrite_server_conf original_server_config
    original_public_key ks.public_key original_preshared_key ks.preshared_key
  let st7 := { st6 with server_conf := new_server_conf }
  let st8 := { st7 with db := mark_config_as_free st7.db peer_id }
  Sum.inr st8

/-- The main `try` body of `replace_wireguard_config`: snapshot reads
(A0–A4), key generation (A5), key-file writes (A6–A8), client-conf write
(A9), removal of the old interface peer (A10), then the tail above.
`Sum.inl` is a thrown exception together with the state and captures at the
throw. -/
def run_replace_main (st0 : WgPeerState) (peer_id : Nat) (ks : WgKeys)
    (fail_at : Option Nat) : (WgPeerState × Captures) ⊕ WgPeerState :=
  let c0 : Captures := ⟨none, none, none, none, none, false⟩
  if fail_at = some 0 then Sum.inl (st0, c0) else
  match st0.client_conf with
  | none => Sum.inl (st0, c0)
  | some original_config =>
  let c1 := { c0 with original_config := some original_config }
  match original_config.address with
  | none => Sum.inl (st0, c1)
  | some client_ip =>
  if client_ip = "" then Sum.inl (st0, c1) else
  if fail_at = some 1 then Sum.inl (st0, c1) else
  let original_private_key := st0.privatekey_file
  let c2 := { c1 with original_private_key := some original_private_key }
  if fail_at = some 2 then Sum.inl (st0, c2) else
  let original_public_key := st0.publickey_file
  let c3 := { c2 with original_public_key := some original_public_key }
  if fail_at = some 3 then Sum.inl (st0, c3) else
  let original_preshared_key := st0.presharedkey_file
  let c4 := { c3 with original_preshared_key := some original_preshared_key }
  if fail_at = some 4 then Sum.inl (st0, c4) else
  let original_server_config := st0.server_conf
  let c5 := { c4 with original_server_config := some original_server_config }
  if fail_at = some 5 then Sum.inl (st0, c5) else
  if ks.private_key = "" ∨ ks.public_key = "" ∨ ks.preshared_key = "" then
    Sum.inl (st0, c5)
  else
  if fail_at = some 6 then Sum.inl (st0, c5) else
  let st1 := { st0 with privatekey_file := ks.private_key }
  if fail_at = some 7 then Sum.inl (st1, c5) else
  let st2 := { st1 with publickey_file := ks.public_key }
  if fail_at = some 8 then Sum.inl (st2, c5) else
  let st3 := { st2 with presharedkey_file := ks.preshared_key }
  if fail_at = some 9 then Sum.inl (st3, c5) else
  let updated_config := { original_config with
    private_key := ks.private_key, preshared_key := ks.preshared_key }
  let st4 := { st3 with client_conf := some updated_config }
  if original_public_key = "" then
    -- old public key falsy: the removal step is skipped, `interface_modified` stays false
    run_replace_after_remove st4 c5 peer_id ks client_ip original_public_key
      original_preshared_key original_server_config fail_at
  else
  if fail_at = some 10 then Sum.inl (st4, c5) else
  let st5 := { st4 with iface := iface_remove st4.iface original_public_key }
  let c6 := { c5 with interface_modified := true }
  run_replace_after_remove st5 c6 peer_id ks client_ip original_public_key
    original_preshared_key original_server_config fail_at

/-- The `rollback` closure: restore the captured key files (each only when
captured and truthy), the client conf, the interface (re-reading the — just
restored — public key file, removing the peer under it only when it differs
from the original, then re-adding the original peer with the preshared-key
file and the `Address` of the snapshotted conf), and the server conf. -/
def replace_rollback (st : WgPeerState) (c : Captures) : WgPeerState :=
  let st1 := match c.original_private_key with
    | some k => if k ≠ "" then { st with privatekey_file := k } else st
    | none => st
  let st2 := match c.original_public_key with
    | some k => if k ≠ "" then { st1 with publickey_file := k } else st1
    | none => st1
  let st3 := match c.original_preshared_key with
    | some k => if k ≠ "" then { st2 with presharedkey_file := k } else st2
    | none => st2
  let st4 := match c.original_config with
    | some conf => { st3 with client_conf := some conf }
    | none => st3
  let st5 :=
    match c.original_public_key with
    | some opk =>
      if c.interface_modified ∧ opk ≠ "" then
        let current := st4.publickey_file
        let st4a :=
          if current ≠ "" ∧ current ≠ opk then
            { st4 with iface := iface_remove st4.iface current }
          else st4
        match c.original_config with
        | some conf =>
          match conf.address with
          | some ip =>
            if ip ≠ "" then
              let readd := iface_set st4a.iface opk st4a.presharedkey_file (cidr_of ip)
              { st4a with iface := readd }
            else st4a
          | none => st4a
        | none => st4a
      else st4
    | none => st4
  match c.original_server_config with
  | some sc => { st5 with server_conf := sc }
  | none => st5

/-- The `{ success, new_keys? }` return value. -/
structure ReplaceResult where
  success : Bool
  new_keys : Option WgKeys
deriving Repr, DecidableEq

/-- `replace_wireguard_config( { peer_id } )` (with `CI_MOCK_WG_CONTAINER`
unset): run the main body; on a thrown exception run the rollback and
return `{ success: false }`, otherwise `{ success: true, new_keys }`. -/
def replace_wireguard_config (st : WgPeerState) (peer_id : Nat) (ks : WgKeys)
    (fail_at : Option Nat) : ReplaceResult × WgPeerState :=
  match run_replace_main st peer_id ks fail_at with
  | Sum.inl (st', c) => ({ success := false, new_keys := none }, replace_rollback st' c)
  | Sum.inr st' => ({ success := true, new_keys := some ks }, st')

/-! # Theorems -/

/-! ## Claim C10 — `POST /worker` error responses -/

/-- C10: every `POST /worker` request whose processing throws is answered
with HTTP status 200 and a JSON body `{ error }` — never a 4xx/5xx — and
`registered: true` appears in the body exactly when the processing pipeline
succeeded. -/
theorem C10_worker_post_throws_get_status_200 (env : WorkerPostEnv)
    (ip : String) (wg s5 : Option String) :
    (handle_worker_post env ip wg s5).status = 200 ∧
    ((handle_worker_post env ip wg s5).registered = true ↔
      ∃ w, process_worker_post env ip wg s5 = Except.ok w) ∧
    (∀ e, process_worker_post env ip wg s5 = Except.error e →
      handle_worker_post env ip wg s5 =
        { status := 200, registered := false, error := some e }) := by
  unfold handle_worker_post
  cases h : process_worker_post env ip wg s5 <;>
    simp_all

/-- Witness for C10 at a concrete failing request: a `validate` oracle that
returns no successes makes the pipeline throw, and the route still answers
with status 200 and an error body. -/
theorem C10_worker_post_throws_get_status_200_witness :
    handle_worker_post
      { ip_geodata := Except.ok ("DE", "datacenter"),
        add_configs := Except.ok (none, none),
        is_valid_worker := fun _ => true,
        validate := fun _ => Except.ok [],
        map_ips := Except.ok (),
        write_workers := Except.ok () }
      "198.51.100.7" (some "wg") (some "s5") =
      { status := 200, registered := false, error := some "Worker failed validation" } :=
  (C10_worker_post_throws_get_status_200
    { ip_geodata := Except.ok ("DE", "datacenter"),
      add_configs := Except.ok (none, none),
      is_valid_worker := fun _ => true,
      validate := fun _ => Except.ok [],
      map_ips := Except.ok (),
      write_workers := Except.ok () }
    "198.51.100.7" (some "wg") (some "s5")).2.2
    "Worker failed validation" (by rfl)

/-! ## Claim C7 — `score_node_version` semver grace -/

/-- `min_semver loc ≤ loc` in the semver order. -/
theorem min_semver_le_self (loc : SemVer) : semver_le (min_semver loc) loc = true := by
  rcases loc with ⟨M, m, p⟩
  unfold min_semver semver_le
  by_cases hp : 1 ≤ p
  · simp [hp]
  · by_cases hm : 0 < m
    · simp only [hp, if_false, hm, if_true]
      simp
      omega
    · simp [hp, hm]

/-- C7: `score_node_version` marks the remote node valid iff its version
equals the local one, or is at least `min_semver` (one patch step below the
local version, clamped as the source clamps), or the local last commit is
within the 24 h grace window; at the boundary, outside the grace window and
with local patch ≥ 2, exactly one patch below passes and two below fails. -/
theorem C7_score_node_version_spec (loc remote : SemVer)
    (branch_match hash_match grace : Bool) :
    (score_node_version loc remote branch_match hash_match grace = true ↔
      (remote = loc ∨ semver_le (min_semver loc) remote = true ∨ grace = true)) ∧
    (2 ≤ loc.patch → grace = false →
      score_node_version loc ⟨loc.major, loc.minor, loc.patch - 1⟩
        branch_match hash_match grace = true ∧
      score_node_version loc ⟨loc.major, loc.minor, loc.patch - 2⟩
        branch_match hash_match grace = false) := by
  constructor
  · unfold score_node_version
    cases grace <;> by_cases hv : remote = loc <;>
      cases branch_match <;> cases hash_match <;>
      simp [hv, min_semver_le_self]
  · intro hp hg
    have h1 : min_semver loc = ⟨loc.major, loc.minor, loc.patch - 1⟩ := by
      unfold min_semver
      have hple : 1 ≤ loc.patch := by omega
      simp [hple]
    constructor
    · have hne : (⟨loc.major, loc.minor, loc.patch - 1⟩ : SemVer) ≠ loc := by
        intro h
        have := congrArg SemVer.patch h
        simp at this
        omega
      have hle : semver_le (min_semver loc)
          ⟨loc.major, loc.minor, loc.patch - 1⟩ = true := by
        rw [h1]; unfold semver_le; simp
      unfold score_node_version
      cases branch_match <;> cases hash_match <;> simp [hg, hne, hle]
    · have hne : (⟨loc.major, loc.minor, loc.patch - 2⟩ : SemVer) ≠ loc := by
        intro h
        have := congrArg SemVer.patch h
        simp at this
        omega
      have hle : semver_le (min_semver loc)
          ⟨loc.major, loc.minor, loc.patch - 2⟩ = false := by
        rw [h1]; unfold semver_le; simp; omega
      unfold score_node_version
      cases branch_match <;> cases hash_match <;> simp [hg, hne, hle]

/-- Witness for C7 at local version 1.2.3 outside the grace window: remote
1.2.2 is accepted, remote 1.2.1 rejected, and the acceptance condition is
an iff at remote 1.2.2. -/
theorem C7_score_node_version_spec_witness :
    (score_node_version ⟨1, 2, 3⟩ ⟨1, 2, 2⟩ false false false = true ↔
      ((⟨1, 2, 2⟩ : SemVer) = ⟨1, 2, 3⟩ ∨
        semver_le (min_semver ⟨1, 2, 3⟩) ⟨1, 2, 2⟩ = true ∨ false = true)) ∧
    (2 ≤ (3:Nat) ∧
      score_node_version ⟨1, 2, 3⟩ ⟨1, 2, 3 - 1⟩ false false false = true ∧
      score_node_version ⟨1, 2, 3⟩ ⟨1, 2, 3 - 2⟩ false false false = false) :=
  ⟨(C7_score_node_version_spec ⟨1, 2, 3⟩ ⟨1, 2, 2⟩ false false false).1,
    by decide,
    ((C7_score_node_version_spec ⟨1, 2, 3⟩ ⟨1, 2, 2⟩ false false false).2
      (by decide) (by decide)).1,
    ((C7_score_node_version_spec ⟨1, 2, 3⟩ ⟨1, 2, 2⟩ false false false).2
      (by decide) (by decide)).2⟩

/-! ## Claim C8 — `count_available_socks` -/

/-- Counterexample to C8: with a table holding an unavailable row `id 1`
and an available row `id 2`, `count_available_socks( { skip_slots: 1 } )`
returns `0`, while the number of rows with `available = TRUE` and `id > 1`
is `1`.  The `OFFSET` applies to the list of *available* rows, not to the
id values. -/
theorem C8_count_available_socks_counterexample :
    count_available_socks
      [⟨1, "10.0.0.1", 1080, "u1", "p1", false, 0, 0⟩,
       ⟨2, "10.0.0.1", 1080, "u2", "p2", true, 0, 0⟩] 1 = 0 ∧
    (([⟨1, "10.0.0.1", 1080, "u1", "p1", false, 0, 0⟩,
       ⟨2, "10.0.0.1", 1080, "u2", "p2", true, 0, 0⟩] : List SockRow).filter
      (fun r => r.available && decide (1 < r.id))).length = 1 := by
  constructor <;> rfl

/-- C8 amended: `count_available_socks( { skip_slots: P } )` returns the
number of available rows that remain after skipping the first `P`
*available* rows in ascending id order — that is,
`(number of available rows) - P`, truncated at zero. -/
theorem C8_count_available_socks_amended (rows : List SockRow) (P : Nat) :
    count_available_socks rows P = (available_rows rows).length - P := by
  unfold count_available_socks
  exact List.length_drop P (available_rows rows)

/-! ## Claim C3 — `is_validator` and the unspoofable address -/

/-- The `find` of the miner-side `is_validator` can never succeed: every
element of `validator_ips()` is a bare string, whose destructured `ip`
property is `undefined`, and `undefined === unspoofable_ip` is false. -/
theorem is_validator_find_eq_none
    (cached : Option (List ValidatorEntry)) (ip : String) :
    (((validator_ips cached).map (fun s => JVal.lit (JLit.vstr s))).find?
      (fun element =>
        JLit.strictEq (element.getField "ip") (JLit.vstr ip))) = none := by
  rw [List.find?_eq_none]
  intro x hx
  rcases List.mem_map.mp hx with ⟨s, _, rfl⟩
  simp [JVal.getField, JLit.strictEq]

/-- The miner-side `is_validator` is falsy on every input. -/
theorem is_validator_falsy
    (cached : Option (List ValidatorEntry)) (ip : String) :
    JVal.truthy (is_validator cached ip) = false := by
  unfold is_validator
  by_cases h : naive_ipv4_match ip
  · simp only [h, Bool.not_true, Bool.false_eq_true, if_false]
    rw [is_validator_find_eq_none]
    rfl
  · simp [h, JVal.truthy, JLit.truthy]

/-- C3: in the miner-side `metagraph.js`, `is_validator` is falsy for
*every* request, including one whose unspoofable remote address is a member
of `validator_ips()` — `validator_ips()` returns bare ip strings, and the
`find` callback destructures `{ ip }` from each string, comparing
`undefined` to the address.  The first conjunct evaluates the embedded code
on every cached list and every remote address; the second and third exhibit
the divergence at the fallback list and the live validator ip
`34.130.136.222`. -/
theorem C3_is_validator_never_truthy
    (cached : Option (List ValidatorEntry)) (ip : String) :
    JVal.truthy (is_validator cached ip) = false ∧
    "34.130.136.222" ∈ validator_ips none ∧
    JVal.truthy (is_validator none "34.130.136.222") = false :=
  ⟨is_validator_falsy cached ip, by decide,
    is_validator_falsy none "34.130.136.222"⟩

/-! ## Claim C9 — testnet validators in count and `is_validator` -/

/-- C9 divergences, evaluated on the fallback list: the fallback list has
five entries with non-null uid, but the validator-side `validator_count()`
reports 4 (its `!!uid` filter also drops the live uid-0 validator), while
the miner-side count reports 5; a request from the testnet ip
`165.232.93.107` is truthy for the validator-side `is_validator` (testnet
entries are retained there) but falsy for the miner-side `is_validator`
(testnet entries are filtered out of `validator_ips`, and its `find` never
matches at all). -/
theorem C9_testnet_validator_handling :
    (validators_fallback.filter
      (fun v => !(JLit.strictEq v.uid JLit.vnull))).length = 5 ∧
    validator_count_v none = 4 ∧
    validator_count none = 5 ∧
    JVal.truthy (is_validator_v none "165.232.93.107") = true ∧
    JVal.truthy (is_validator none "165.232.93.107") = false := by
  refine ⟨by rfl, by rfl, by rfl, by rfl, ?_⟩
  exact is_validator_falsy none "165.232.93.107"

/-! ## Claim C1 — `register_wireguard_lease` allocation -/

/-- The head of a filtered contiguous range is the smallest element of the
range satisfying the predicate. -/
theorem head?_filter_range' (p : Nat → Bool) :
    ∀ n s i, ((List.range' s n).filter p).head? = some i ↔
      (s ≤ i ∧ i < s + n ∧ p i = true ∧
        ∀ j, s ≤ j → j < i → p j = false) := by
  intro n
  induction n with
  | zero =>
    intro s i
    simp only [List.range', List.filter_nil, List.head?_nil]
    constructor
    · intro h; cases h
    · intro ⟨h1, h2, _⟩; omega
  | succ n ih =>
    intro s i
    rw [List.range'_succ]
    by_cases hp : p s
    · rw [List.filter_cons_of_pos hp]
      simp only [List.head?_cons, Option.some.injEq]
      constructor
      · rintro rfl
        exact ⟨Nat.le_refl s, by omega, hp, fun j h1 h2 => by omega⟩
      · rintro ⟨h1, _, hpi, hmin⟩
        rcases Nat.eq_or_lt_of_le h1 with h | h
        · exact h
        · exact absurd hp (by simpa using hmin s (Nat.le_refl s) h)
    · rw [List.filter_cons_of_neg (by simpa using hp)]
      rw [ih (s + 1) i]
      constructor
      · rintro ⟨h1, h2, hpi, hmin⟩
        refine ⟨by omega, by omega, hpi, fun j hj1 hj2 => ?_⟩
        rcases Nat.eq_or_lt_of_le hj1 with h | h
        · subst h; simpa using hp
        · exact hmin j h hj2
      · rintro ⟨h1, h2, hpi, hmin⟩
        have hne : i ≠ s := by
          intro h; rw [h] at hpi; exact absurd hpi (by simpa using hp)
        exact ⟨by omega, by omega, hpi, fun j hj1 hj2 => hmin j (by omega) hj2⟩

/-- `find_available_id` returns `some i` exactly when `i` is the smallest
id of `[start_id..end_id]` with no row in the table. -/
theorem find_available_id_eq_some (t : WgTable) (s e i : Nat) :
    find_available_id t s e = some i ↔
      (s ≤ i ∧ i ≤ e ∧ wg_has_id t i = false ∧
        ∀ j, s ≤ j → j < i → wg_has_id t j = true) := by
  unfold find_available_id
  rw [head?_filter_range' (fun j => !wg_has_id t j) (e + 1 - s) s i]
  constructor
  · rintro ⟨h1, h2, h3, h4⟩
    refine ⟨h1, by omega, by simpa using h3, fun j hj1 hj2 => ?_⟩
    have := h4 j hj1 hj2
    simpa using this
  · rintro ⟨h1, h2, h3, h4⟩
    refine ⟨h1, by omega, by simpa using h3, fun j hj1 hj2 => ?_⟩
    simpa using h4 j hj1 hj2

/-- `find_available_id` returns `null` exactly when every id of the range
is taken. -/
theorem find_available_id_eq_none (t : WgTable) (s e : Nat) :
    find_available_id t s e = none ↔
      ∀ j, s ≤ j → j ≤ e → wg_has_id t j = true := by
  unfold find_available_id
  rw [List.head?_eq_none_iff, List.filter_eq_nil_iff]
  constructor
  · intro h j hj1 hj2
    have hmem : j ∈ List.range' s (e + 1 - s) := by
      rw [List.mem_range'_1]
      omega
    have := h j hmem
    simpa using this
  · intro h j hj
    rw [List.mem_range'_1] at hj
    simp only [Bool.not_eq_true', Bool.not_eq_false]
    exact h j hj.1 (by omega)

/-- One allocation attempt that returns an id: the id is the smallest free
one in the range and its row has been appended. -/
theorem attempt_allocation_some_spec (t : WgTable) (s e exp now i : Nat)
    (h1 : 1 ≤ s)
    (h : (attempt_wireguard_lease_allocation t s e exp now).1 = some i) :
    s ≤ i ∧ i ≤ e ∧ wg_has_id t i = false ∧
    (∀ j, s ≤ j → j < i → wg_has_id t j = true) ∧
    (attempt_wireguard_lease_allocation t s e exp now).2 =
      t ++ [⟨i, exp, now⟩] := by
  unfold attempt_wireguard_lease_allocation at h ⊢
  cases hfind : find_available_id t s e with
  | none => rw [hfind] at h; simp at h
  | some k =>
    rcases (find_available_id_eq_some t s e k).mp hfind with ⟨hk1, hk2, hk3, hk4⟩
    have hk0 : ¬(k = 0) := by omega
    rw [hfind] at h
    simp only [hk0, if_false, Option.some.injEq] at h
    subst h
    simp only [hk0, if_false]
    refine ⟨hk1, hk2, hk3, hk4, ?_⟩
    unfold wg_upsert
    rw [hk3]
    simp

/-- One allocation attempt returns `null` exactly when every id of the
range is taken. -/
theorem attempt_allocation_none_iff (t : WgTable) (s e exp now : Nat)
    (h1 : 1 ≤ s) :
    ((attempt_wireguard_lease_allocation t s e exp now).1 = none ↔
      ∀ j, s ≤ j → j ≤ e → wg_has_id t j = true) := by
  unfold attempt_wireguard_lease_allocation
  cases hfind : find_available_id t s e with
  | none =>
    simp only [true_iff]
    exact (find_available_id_eq_none t s e).mp hfind
  | some k =>
    rcases (find_available_id_eq_some t s e k).mp hfind with ⟨hk1, hk2, hk3, _⟩
    have hk0 : ¬(k = 0) := by omega
    simp only [hk0, if_false]
    constructor
    · intro h; cases h
    · intro h
      have hk := h k hk1 hk2
      rw [hk] at hk3
      cases hk3

/-- When `register_wireguard_lease` returns an id, the new table is either
the original or the cleaned table with the lease row appended — in
particular the inserted row is present. -/
theorem register_ok_table (t : WgTable) (s e exp now i : Nat) (t1 : WgTable)
    (h1 : 1 ≤ s)
    (h : register_wireguard_lease t s e exp now = (Except.ok i, t1)) :
    (t1 = t ++ [⟨i, exp, now⟩] ∨
      t1 = cleanup_expired_wireguard_configs t now ++ [⟨i, exp, now⟩]) ∧
    (⟨i, exp, now⟩ : WgRow) ∈ t1 := by
  unfold register_wireguard_lease at h
  cases hA : attempt_wireguard_lease_allocation t s e exp now with
  | mk o u =>
    rw [hA] at h
    cases o with
    | some j =>
      simp only [Prod.mk.injEq, Except.ok.injEq] at h
      obtain ⟨rfl, rfl⟩ := h
      have := attempt_allocation_some_spec t s e exp now j h1 (by rw [hA])
      have hu : u = t ++ [⟨j, exp, now⟩] := by
        have h2 := this.2.2.2.2
        rw [hA] at h2
        exact h2
      subst hu
      exact ⟨Or.inl rfl, by simp⟩
    | none =>
      dsimp only at h
      cases hB : attempt_wireguard_lease_allocation
          (cleanup_expired_wireguard_configs t now) s e exp now with
      | mk o2 u2 =>
        rw [hB] at h
        cases o2 with
        | some j =>
          simp only [Prod.mk.injEq, Except.ok.injEq] at h
          obtain ⟨rfl, rfl⟩ := h
          have := attempt_allocation_some_spec
            (cleanup_expired_wireguard_configs t now) s e exp now j h1
            (by rw [hB])
          have hu : u2 = cleanup_expired_wireguard_configs t now ++
              [⟨j, exp, now⟩] := by
            have h2 := this.2.2.2.2
            rw [hB] at h2
            exact h2
          subst hu
          exact ⟨Or.inr rfl, by simp⟩
        | none => simp at h

/-- C1: with `1 ≤ start_id ≤ end_id`, the allocation step (run under the
`register_wireguard_lease` lock, here executed directly) returns the
smallest free id of the range and inserts its row, or `null` when every id
of the range is taken; `register_wireguard_lease` retries exactly once
after running the cleanup outside the lock, and throws when the retry also
returns `null`. -/
theorem C1_register_wireguard_lease_spec (t : WgTable) (s e exp now : Nat)
    (h1 : 1 ≤ s) (_h2 : s ≤ e) :
    (∀ i, (attempt_wireguard_lease_allocation t s e exp now).1 = some i →
      s ≤ i ∧ i ≤ e ∧ wg_has_id t i = false ∧
      (∀ j, s ≤ j → j < i → wg_has_id t j = true) ∧
      (attempt_wireguard_lease_allocation t s e exp now).2 =
        t ++ [⟨i, exp, now⟩]) ∧
    ((attempt_wireguard_lease_allocation t s e exp now).1 = none ↔
      ∀ j, s ≤ j → j ≤ e → wg_has_id t j = true) ∧
    (∀ i t1, attempt_wireguard_lease_allocation t s e exp now = (some i, t1) →
      register_wireguard_lease t s e exp now = (Except.ok i, t1)) ∧
    ((attempt_wireguard_lease_allocation t s e exp now).1 = none →
      (∀ i t1, attempt_wireguard_lease_allocation
          (cleanup_expired_wireguard_configs t now) s e exp now = (some i, t1) →
        register_wireguard_lease t s e exp now = (Except.ok i, t1)) ∧
      ((attempt_wireguard_lease_allocation
          (cleanup_expired_wireguard_configs t now) s e exp now).1 = none →
        ∀ i t1, register_wireguard_lease t s e exp now ≠ (Except.ok i, t1))) := by
  refine ⟨fun i h => attempt_allocation_some_spec t s e exp now i h1 h,
    attempt_allocation_none_iff t s e exp now h1, ?_, ?_⟩
  · intro i t1 h
    simp only [register_wireguard_lease, h]
  · intro hfirst
    obtain ⟨t2, h0⟩ : ∃ t2,
        attempt_wireguard_lease_allocation t s e exp now = (none, t2) :=
      ⟨_, by rw [← hfirst]⟩
    constructor
    · intro i t1 h
      simp only [register_wireguard_lease, h0, h]
    · intro hsecond i t1
      obtain ⟨t3, h2nd⟩ : ∃ t3, attempt_wireguard_lease_allocation
          (cleanup_expired_wireguard_configs t now) s e exp now = (none, t3) :=
        ⟨_, by rw [← hsecond]⟩
      simp only [register_wireguard_lease, h0, h2nd]
      simp

/-- Witness for C1: on the empty table with range `[1..1]`, the first
allocation attempt succeeds with id 1 and the row is inserted; the fact is
obtained by applying the retry-structure conjunct of the claim theorem. -/
theorem C1_register_wireguard_lease_spec_witness :
    register_wireguard_lease [] 1 1 5 0 = (Except.ok 1, [⟨1, 5, 0⟩]) :=
  (C1_register_wireguard_lease_spec [] 1 1 5 0 (by decide) (by decide)).2.2.1
    1 [⟨1, 5, 0⟩] (by rfl)

/-! ## Claim C6 — feedback-url cancellation in `get_valid_wireguard_config` -/

/-- `mark_config_as_free` removes the row: the freed id is gone. -/
theorem wg_has_id_mark_config_as_free (t : WgTable) (p : Nat) :
    wg_has_id (mark_config_as_free t p) p = false := by
  unfold wg_has_id mark_config_as_free
  rw [List.any_eq_false]
  intro r hr
  rcases List.mem_filter.mp hr with ⟨_, hcond⟩
  simpa using hcond

/-- C6: once `get_valid_wireguard_config` has leased a peer id and a
feedback url was provided, a feedback status of `'complete'` makes it free
the config again (the lease row is deleted) and return `{ cancelled:
true }`; any other status — including a failed feedback fetch, which yields
no status — returns the config bundle and leaves the lease row in place. -/
theorem C6_get_valid_wireguard_config_feedback (t : WgTable)
    (priority : Bool) (lease now slots pslots : Nat) (conf : String)
    (peer_id : Nat) (t1 : WgTable)
    (hreg : register_wireguard_lease t
        (if priority then 1 else if pslots + 1 > slots then 1 else pslots + 1)
        slots (now + lease * 1000) now = (Except.ok peer_id, t1)) :
    (get_valid_wireguard_config t priority lease now slots pslots conf
        true (some "complete") =
      (WgLeaseOutcome.cancelled, mark_config_as_free t1 peer_id)) ∧
    wg_has_id (get_valid_wireguard_config t priority lease now slots pslots
        conf true (some "complete")).2 peer_id = false ∧
    (∀ fb : Option String, fb ≠ some "complete" →
      get_valid_wireguard_config t priority lease now slots pslots conf
          true fb =
        (WgLeaseOutcome.config ⟨conf, peer_id, slots, now + lease * 1000⟩, t1)) ∧
    (⟨peer_id, now + lease * 1000, now⟩ : WgRow) ∈ t1 := by
  have hstart : 1 ≤ (if priority then 1 else
      if pslots + 1 > slots then 1 else pslots + 1) := by
    split
    · exact Nat.le_refl 1
    · split
      · exact Nat.le_refl 1
      · omega
  have hmem := (register_ok_table t _ slots (now + lease * 1000) now peer_id t1
    hstart hreg).2
  have hcomplete : get_valid_wireguard_config t priority lease now slots pslots
      conf true (some "complete") =
      (WgLeaseOutcome.cancelled, mark_config_as_free t1 peer_id) := by
    unfold get_valid_wireguard_config
    dsimp only
    rw [hreg]
    simp
  refine ⟨hcomplete, ?_, ?_, hmem⟩
  · rw [hcomplete]
    exact wg_has_id_mark_config_as_free t1 peer_id
  · intro fb hfb
    unfold get_valid_wireguard_config
    dsimp only
    rw [hreg]
    simp [hfb]

/-- Witness for C6 on the empty table: with 3 peer slots, 5 priority slots
and a 1-second non-priority lease the register call succeeds with peer id
1, a `'complete'` feedback status cancels and frees the lease, and a
failed feedback fetch returns the config with the row in place. -/
theorem C6_get_valid_wireguard_config_feedback_witness :
    (get_valid_wireguard_config [] false 1 0 3 5 "conf" true (some "complete") =
      (WgLeaseOutcome.cancelled, mark_config_as_free [⟨1, 1000, 0⟩] 1)) ∧
    wg_has_id (get_valid_wireguard_config [] false 1 0 3 5 "conf" true
        (some "complete")).2 1 = false ∧
    (∀ fb : Option String, fb ≠ some "complete" →
      get_valid_wireguard_config [] false 1 0 3 5 "conf" true fb =
        (WgLeaseOutcome.config ⟨"conf", 1, 3, 1000⟩, [⟨1, 1000, 0⟩])) ∧
    (⟨1, 1000, 0⟩ : WgRow) ∈ [(⟨1, 1000, 0⟩ : WgRow)] :=
  C6_get_valid_wireguard_config_feedback [] false 1 0 3 5 "conf" 1
    [⟨1, 1000, 0⟩] (by rfl)

/-! ## Claim C5 — `write_socks` synchronises the username set -/

/-- Replacing the socks of one username inside a list does not change the
username column. -/
theorem map_replace_usernames (acc : List Sock) (s : Sock) :
    (acc.map (fun x => if x.username = s.username then s else x)).map
      (·.username) = acc.map (·.username) := by
  rw [List.map_map]
  apply List.map_congr_left
  intro x _
  by_cases h : x.username = s.username
  · simp [h]
  · simp [h]

/-- The JS-`Map` deduplication keeps exactly the usernames of the input. -/
theorem js_unique_aux_mem (S : List Sock) :
    ∀ (acc : List Sock) (u : String),
      (u ∈ (S.foldl (fun acc s =>
          if acc.any (·.username = s.username) then
            acc.map (fun x => if x.username = s.username then s else x)
          else acc ++ [s]) acc).map (·.username) ↔
        u ∈ acc.map (·.username) ∨ u ∈ S.map (·.username)) := by
  induction S with
  | nil => intro acc u; simp
  | cons s S ih =>
    intro acc u
    rw [List.foldl_cons]
    by_cases h : acc.any (·.username = s.username)
    · rw [if_pos h, ih, map_replace_usernames]
      rcases List.any_eq_true.mp h with ⟨x, hx, hxu⟩
      simp only [List.map_cons, List.mem_cons]
      constructor
      · rintro (hu | hu)
        · exact Or.inl hu
        · exact Or.inr (Or.inr hu)
      · rintro (hu | hu | hu)
        · exact Or.inl hu
        · subst hu
          exact Or.inl (List.mem_map.mpr ⟨x, hx, by simpa using hxu⟩)
        · exact Or.inr hu
    · rw [if_neg h, ih]
      simp only [List.map_append, List.map_cons, List.mem_append,
        List.mem_cons, List.map_nil, List.mem_singleton]
      tauto

/-- The JS-`Map` deduplication yields pairwise-distinct usernames. -/
theorem js_unique_aux_nodup (S : List Sock) :
    ∀ (acc : List Sock), (acc.map (·.username)).Nodup →
      ((S.foldl (fun acc s =>
          if acc.any (·.username = s.username) then
            acc.map (fun x => if x.username = s.username then s else x)
          else acc ++ [s]) acc).map (·.username)).Nodup := by
  induction S with
  | nil => intro acc h; simpa using h
  | cons s S ih =>
    intro acc h
    rw [List.foldl_cons]
    by_cases hc : acc.any (·.username = s.username)
    · rw [if_pos hc]
      exact ih _ (by rw [map_replace_usernames]; exact h)
    · rw [if_neg hc]
      apply ih
      rw [List.map_append]
      rw [List.nodup_append]
      refine ⟨h, by simp, ?_⟩
      intro u hu hu2
      simp only [List.map_cons, List.map_nil, List.mem_singleton] at hu2
      subst hu2
      rcases List.mem_map.mp hu with ⟨x, hx, hxu⟩
      exact absurd (List.any_eq_true.mpr ⟨x, hx, by simpa using hxu⟩) hc

/-- Membership in the deduplicated username set equals membership in the
input username multiset. -/
theorem js_unique_by_username_mem (S : List Sock) (u : String) :
    u ∈ (js_unique_by_username S).map (·.username) ↔ u ∈ S.map (·.username) := by
  unfold js_unique_by_username
  rw [js_unique_aux_mem]
  simp

/-- One upsert adds exactly the new username to the username set. -/
theorem upsert_sock_mem_usernames (db : SockDb) (s : Sock) (now : Nat)
    (u : String) :
    u ∈ (upsert_sock db s now).rows.map (·.username) ↔
      u ∈ db.rows.map (·.username) ∨ u = s.username := by
  unfold upsert_sock
  by_cases h : db.rows.any (·.username = s.username)
  · rw [if_pos h]
    have husernames : ((db.rows.map fun r =>
        if r.username = s.username then
          { r with password := s.password, updated := now }
        else r).map (·.username)) = db.rows.map (·.username) := by
      rw [List.map_map]
      apply List.map_congr_left
      intro x _
      by_cases hx : x.username = s.username
      · simp [hx]
      · simp [hx]
    dsimp only
    rw [husernames]
    rcases List.any_eq_true.mp h with ⟨x, hx, hxu⟩
    constructor
    · exact Or.inl
    · rintro (hu | hu)
      · exact hu
      · subst hu
        exact List.mem_map.mpr ⟨x, hx, by simpa using hxu⟩
  · rw [if_neg h]
    simp

/-- Folding the upsert over a sock list: the username set is the union. -/
theorem foldl_upsert_mem (l : List Sock) :
    ∀ (db : SockDb) (now : Nat) (u : String),
      (u ∈ (l.foldl (fun d s => upsert_sock d s now) db).rows.map (·.username) ↔
        u ∈ db.rows.map (·.username) ∨ u ∈ l.map (·.username)) := by
  induction l with
  | nil => intro db now u; simp
  | cons s l ih =>
    intro db now u
    rw [List.foldl_cons, ih, upsert_sock_mem_usernames]
    simp only [List.map_cons, List.mem_cons]
    tauto

/-- One upsert preserves username uniqueness. -/
theorem upsert_sock_nodup (db : SockDb) (s : Sock) (now : Nat)
    (h : (db.rows.map (·.username)).Nodup) :
    ((upsert_sock db s now).rows.map (·.username)).Nodup := by
  unfold upsert_sock
  by_cases hc : db.rows.any (·.username = s.username)
  · rw [if_pos hc]
    have husernames : ((db.rows.map fun r =>
        if r.username = s.username then
          { r with password := s.password, updated := now }
        else r).map (·.username)) = db.rows.map (·.username) := by
      rw [List.map_map]
      apply List.map_congr_left
      intro x _
      by_cases hx : x.username = s.username
      · simp [hx]
      · simp [hx]
    dsimp only
    rw [husernames]
    exact h
  · rw [if_neg hc]
    dsimp only
    rw [List.map_append, List.nodup_append]
    refine ⟨h, by simp, ?_⟩
    intro u hu hu2
    simp only [List.map_cons, List.map_nil, List.mem_singleton] at hu2
    subst hu2
    rcases List.mem_map.mp hu with ⟨x, hx, hxu⟩
    exact absurd (List.any_eq_true.mpr ⟨x, hx, by simpa using hxu⟩) hc

/-- Folding the upsert preserves username uniqueness. -/
theorem foldl_upsert_nodup (l : List Sock) :
    ∀ (db : SockDb) (now : Nat), (db.rows.map (·.username)).Nodup →
      ((l.foldl (fun d s => upsert_sock d s now) db).rows.map (·.username)).Nodup := by
  induction l with
  | nil => intro db now h; exact h
  | cons s l ih =>
    intro db now h
    rw [List.foldl_cons]
    exact ih _ now (upsert_sock_nodup db s now h)

/-- The fields of one sock row other than `password` and `updated` survive
an upsert. -/
theorem upsert_sock_preserves_row (db : SockDb) (s : Sock) (now : Nat)
    (r : SockRow) (hr : r ∈ db.rows) :
    ∃ q ∈ (upsert_sock db s now).rows, q.id = r.id ∧
      q.username = r.username ∧ q.ip_address = r.ip_address ∧
      q.port = r.port ∧ q.available = r.available ∧
      q.expires_at = r.expires_at := by
  unfold upsert_sock
  by_cases hc : db.rows.any (·.username = s.username)
  · rw [if_pos hc]
    refine ⟨if r.username = s.username then
      { r with password := s.password, updated := now } else r,
      List.mem_map.mpr ⟨r, hr, rfl⟩, ?_⟩
    by_cases hx : r.username = s.username
    · simp [hx]
    · simp [hx]
  · rw [if_neg hc]
    exact ⟨r, by simp [hr], rfl, rfl, rfl, rfl, rfl, rfl⟩

/-- The fields of one sock row other than `password` and `updated` survive
the whole upsert fold. -/
theorem foldl_upsert_preserves_row (l : List Sock) :
    ∀ (db : SockDb) (now : Nat) (r : SockRow), r ∈ db.rows →
      ∃ q ∈ (l.foldl (fun d s => upsert_sock d s now) db).rows, q.id = r.id ∧
        q.username = r.username ∧ q.ip_address = r.ip_address ∧
        q.port = r.port ∧ q.available = r.available ∧
        q.expires_at = r.expires_at := by
  induction l with
  | nil => intro db now r hr; exact ⟨r, hr, rfl, rfl, rfl, rfl, rfl, rfl⟩
  | cons s l ih =>
    intro db now r hr
    rw [List.foldl_cons]
    rcases upsert_sock_preserves_row db s now r hr with
      ⟨q, hq, hid, hun, hip, hport, hav, hexp⟩
    rcases ih (upsert_sock db s now) now q hq with
      ⟨q2, hq2, hid2, hun2, hip2, hport2, hav2, hexp2⟩
    exact ⟨q2, hq2, hid2.trans hid, hun2.trans hun, hip2.trans hip,
      hport2.trans hport, hav2.trans hav, hexp2.trans hexp⟩

/-- C5: after `write_socks( { socks: S } )` succeeds, the username column
equals the deduplicated username set of `S` (and is duplicate-free), the
table is empty when `S` is empty, and rows whose username was already
present keep their `id, ip_address, port, available, expires_at` — only
`password` and `updated` are rewritten. -/
theorem C5_write_socks_spec (db : SockDb) (S : List Sock) (now : Nat)
    (hn : (db.rows.map (·.username)).Nodup) :
    (∀ u, u ∈ ((write_socks db S now).1).rows.map (·.username) ↔
        u ∈ S.map (·.username)) ∧
    (((write_socks db S now).1).rows.map (·.username)).Nodup ∧
    (S = [] → ((write_socks db S now).1).rows = []) ∧
    (∀ r ∈ db.rows, r.username ∈ S.map (·.username) →
      ∃ q ∈ ((write_socks db S now).1).rows,
        q.id = r.id ∧ q.username = r.username ∧ q.ip_address = r.ip_address ∧
        q.port = r.port ∧ q.available = r.available ∧
        q.expires_at = r.expires_at) := by
  by_cases hS : S.isEmpty
  · have hSnil : S = [] := List.isEmpty_iff.mp hS
    subst hSnil
    unfold write_socks
    simp
  · unfold write_socks
    rw [if_neg hS]
    dsimp only
    have hSne : S ≠ [] := fun h => hS (by simp [h])
    refine ⟨?_, ?_, fun h => absurd h hSne, ?_⟩
    · intro u
      constructor
      · intro hu
        rcases List.mem_map.mp hu with ⟨q, hq, rfl⟩
        rcases List.mem_filter.mp hq with ⟨_, hcond⟩
        have : q.username ∈ (js_unique_by_username S).map (·.username) :=
          List.mem_map.mpr (by
            have := List.elem_iff.mp hcond
            rcases List.mem_map.mp this with ⟨x, hx, hxu⟩
            exact ⟨x, hx, hxu⟩)
        exact (js_unique_by_username_mem S q.username).mp this
      · intro hu
        have hinc : u ∈ (js_unique_by_username S).map (·.username) :=
          (js_unique_by_username_mem S u).mpr hu
        have hdb1 : u ∈ ((js_unique_by_username S).foldl
            (fun d s => upsert_sock d s now) db).rows.map (·.username) :=
          (foldl_upsert_mem _ db now u).mpr (Or.inr hinc)
        rcases List.mem_map.mp hdb1 with ⟨q, hq, rfl⟩
        refine List.mem_map.mpr ⟨q, List.mem_filter.mpr ⟨hq, ?_⟩, rfl⟩
        exact List.elem_iff.mpr hinc
    · have hnodup1 := foldl_upsert_nodup (js_unique_by_username S) db now hn
      exact List.Nodup.sublist
        (List.Sublist.map _ (List.filter_sublist _)) hnodup1
    · intro r hr hru
      rcases foldl_upsert_preserves_row (js_unique_by_username S) db now r hr
        with ⟨q, hq, hid, hun, hip, hport, hav, hexp⟩
      have hqin : q.username ∈ (js_unique_by_username S).map (·.username) := by
        rw [hun]
        exact (js_unique_by_username_mem S r.username).mpr hru
      exact ⟨q, List.mem_filter.mpr ⟨hq, List.elem_iff.mpr hqin⟩,
        hid, hun, hip, hport, hav, hexp⟩

/-- Witness for C5: a table with one row `u1` and an input renewing `u1`
with a new password and adding `u2`; the username set afterwards is
`{u1, u2}` and the `u1` row keeps its id, availability and expiry. -/
theorem C5_write_socks_spec_witness :
    (([(⟨1, "h", 9, "u1", "old", true, 7, 0⟩ : SockRow)].map (·.username)).Nodup) ∧
    (∀ u, u ∈ ((write_socks ⟨[⟨1, "h", 9, "u1", "old", true, 7, 0⟩], 2⟩
        [⟨"h", 9, "u1", "new", false⟩, ⟨"h", 9, "u2", "pw", true⟩] 9).1).rows.map
          (·.username) ↔
      u ∈ [(⟨"h", 9, "u1", "new", false⟩ : Sock),
           ⟨"h", 9, "u2", "pw", true⟩].map (·.username)) ∧
    (∀ r ∈ [(⟨1, "h", 9, "u1", "old", true, 7, 0⟩ : SockRow)],
      r.username ∈ [(⟨"h", 9, "u1", "new", false⟩ : Sock),
        ⟨"h", 9, "u2", "pw", true⟩].map (·.username) →
      ∃ q ∈ ((write_socks ⟨[⟨1, "h", 9, "u1", "old", true, 7, 0⟩], 2⟩
          [⟨"h", 9, "u1", "new", false⟩, ⟨"h", 9, "u2", "pw", true⟩] 9).1).rows,
        q.id = r.id ∧ q.username = r.username ∧ q.ip_address = r.ip_address ∧
        q.port = r.port ∧ q.available = r.available ∧
        q.expires_at = r.expires_at) :=
  ⟨by decide,
    (C5_write_socks_spec ⟨[⟨1, "h", 9, "u1", "old", true, 7, 0⟩], 2⟩
      [⟨"h", 9, "u1", "new", false⟩, ⟨"h", 9, "u2", "pw", true⟩] 9 (by decide)).1,
    (C5_write_socks_spec ⟨[⟨1, "h", 9, "u1", "old", true, 7, 0⟩], 2⟩
      [⟨"h", 9, "u1", "new", false⟩, ⟨"h", 9, "u2", "pw", true⟩] 9 (by decide)).2.2.2⟩

/-! ## Claim C4 — the priority pool is never marked unavailable

The development below follows the statement granularity of the embedding:
for each SQL statement a step-safety lemma, composed along the snapshot
traces of the three operations. -/

/-- In an ascending-id list, a row is determined by its id. -/
theorem id_mem_unique {rows : List SockRow}
    (hp : rows.Pairwise (fun a b => a.id < b.id)) :
    ∀ {a b : SockRow}, a ∈ rows → b ∈ rows → a.id = b.id → a = b := by
  induction rows with
  | nil => intro a b ha; cases ha
  | cons x l ih =>
    rcases List.pairwise_cons.mp hp with ⟨hx, hl⟩
    intro a b ha hb hab
    rcases List.mem_cons.mp ha with ha' | ha'
    · rcases List.mem_cons.mp hb with hb' | hb'
      · rw [ha', hb']
      · subst ha'
        exact absurd hab (by have := hx b hb'; omega)
    · rcases List.mem_cons.mp hb with hb' | hb'
      · subst hb'
        exact absurd hab (by have := hx a ha'; omega)
      · exact ih hl ha' hb' hab

/-- With the `UNIQUE` constraint, a row is determined by its username. -/
theorem username_mem_unique {rows : List SockRow}
    (hn : (rows.map (·.username)).Nodup) :
    ∀ {a b : SockRow}, a ∈ rows → b ∈ rows → a.username = b.username →
      a = b := by
  induction rows with
  | nil => intro a b ha; cases ha
  | cons x l ih =>
    rw [List.map_cons, List.nodup_cons] at hn
    intro a b ha hb hab
    rcases List.mem_cons.mp ha with ha' | ha'
    · rcases List.mem_cons.mp hb with hb' | hb'
      · rw [ha', hb']
      · subst ha'
        exact absurd (List.mem_map.mpr ⟨b, hb', hab.symm⟩) hn.1
    · rcases List.mem_cons.mp hb with hb' | hb'
      · subst hb'
        exact absurd (List.mem_map.mpr ⟨a, ha', hab⟩) hn.1
      · exact ih hn.2 ha' hb' hab

/-- The standard-path `SELECT ... OFFSET P LIMIT 1` never returns one of
the first `P` rows of the table: the selected row has `P` available rows
with strictly smaller id in front of it, while a row among the first `P`
has at most `P - 1` rows of any kind before it. -/
theorem standard_select_not_mem_take {rows : List SockRow}
    (hp : rows.Pairwise (fun a b => a.id < b.id)) {P : Nat} {r : SockRow}
    (h : standard_select rows P = some r) : r ∉ rows.take P := by
  intro hmem
  unfold standard_select at h
  set A := available_rows rows with hA
  have hsub : A.Sublist rows := List.filter_sublist rows
  have hpA : A.Pairwise (fun a b => a.id < b.id) := hp.sublist hsub
  rw [List.head?_drop] at h
  have hlen : P < A.length := by
    by_contra hlen
    rw [List.getElem?_eq_none (by omega)] at h
    cases h
  have hAP : A[P] = r := by
    rw [List.getElem?_eq_getElem hlen] at h
    exact Option.some.injEq _ _ ▸ (by simpa using h)
  -- every row of `A.take P` has id < r.id
  have htake_lt : ∀ a ∈ A.take P, a.id < r.id := by
    intro a ha
    rcases List.mem_iff_getElem.mp ha with ⟨i, hi, hai⟩
    have hiP : i < P := by
      have := hi
      simp only [List.length_take] at this
      omega
    have hilen : i < A.length := by omega
    have htk := List.getElem_take A (i := i) (j := P) (h := hi)
    rw [htk] at hai
    have := List.pairwise_iff_getElem.mp hpA i P hilen hlen hiP
    rw [hAP] at this
    rw [← hai]
    exact this
  -- hence A, and so rows, has at least P rows with id < r.id
  have hcountA : P ≤ A.countP (fun a => a.id < r.id) := by
    have hsplit : A.countP (fun a => a.id < r.id) =
        (A.take P).countP (fun a => a.id < r.id) +
        (A.drop P).countP (fun a => a.id < r.id) := by
      rw [← List.countP_append, List.take_append_drop]
    have htakeP : (A.take P).countP (fun a => a.id < r.id) =
        (A.take P).length := by
      rw [List.countP_eq_length]
      intro a ha
      simpa using htake_lt a ha
    rw [hsplit, htakeP, List.length_take]
    omega
  have hcount_rows : P ≤ rows.countP (fun a => a.id < r.id) :=
    le_trans hcountA (hsub.countP_le _)
  -- but a member of rows.take P has fewer than P rows with smaller id
  rcases List.mem_iff_getElem.mp hmem with ⟨j, hj, hrj⟩
  have hjP : j < P := by
    have := hj
    simp only [List.length_take] at this
    omega
  have hjlen : j < rows.length := by
    have := hj
    simp only [List.length_take] at this
    omega
  have hrowsj : rows[j] = r := by
    have htk := List.getElem_take rows (i := j) (j := P) (h := hj)
    rw [htk] at hrj
    exact hrj
  have hcount_eq : rows.countP (fun a => a.id < r.id) = j := by
    have hsplit : rows.countP (fun a => a.id < r.id) =
        (rows.take j).countP (fun a => a.id < r.id) +
        (rows.drop j).countP (fun a => a.id < r.id) := by
      rw [← List.countP_append, List.take_append_drop]
    have htakej : (rows.take j).countP (fun a => a.id < r.id) =
        (rows.take j).length := by
      rw [List.countP_eq_length]
      intro a ha
      rcases List.mem_iff_getElem.mp ha with ⟨i, hi, hai⟩
      have hij : i < j := by
        have := hi
        simp only [List.length_take] at this
        omega
      have hilen : i < rows.length := by omega
      have htk := List.getElem_take rows (i := i) (j := j) (h := hi)
      rw [htk] at hai
      have := List.pairwise_iff_getElem.mp hp i j hilen hjlen hij
      rw [hrowsj] at this
      rw [← hai]
      simpa using this
    have hdropj : (rows.drop j).countP (fun a => a.id < r.id) = 0 := by
      rw [List.countP_eq_zero]
      intro a ha
      rcases List.mem_iff_getElem.mp ha with ⟨i, hi, hai⟩
      have hilen2 : j + i < rows.length := by
        have := hi
        simp only [List.length_drop] at this
        omega
      have hdr := List.getElem_drop rows (i := j) (j := i) (h := hi)
      rw [hdr] at hai
      rcases Nat.eq_zero_or_pos i with rfl | hpos
      · simp only [Nat.add_zero] at hai
        rw [hrowsj] at hai
        subst hai
        simp
      · have := List.pairwise_iff_getElem.mp hp j (j + i) hjlen hilen2 (by omega)
        rw [hrowsj] at this
        rw [← hai]
        simp only [decide_eq_true_eq]
        omega
    rw [hsplit, htakej, hdropj, List.length_take]
    omega
  omega

/-- A transition to a subset of the rows (a `DELETE`) is priority-safe. -/
theorem step_safe_of_subset {P : Nat} {t u : SockDb}
    (hp : t.rows.Pairwise (fun a b => a.id < b.id))
    (hsub : ∀ q ∈ u.rows, q ∈ t.rows) : sock_step_safe P t u := by
  intro r hr hav q hq hid
  have hq' := hsub q hq
  have heq := id_mem_unique hp hq' (List.take_subset _ _ hr) hid
  rw [heq]
  exact hav

/-- A transition that maps every row preserving its id and never losing
availability is priority-safe. -/
theorem step_safe_of_map {P : Nat} {t u : SockDb}
    (hp : t.rows.Pairwise (fun a b => a.id < b.id))
    (f : SockRow → SockRow) (hu : u.rows = t.rows.map f)
    (hid : ∀ x, (f x).id = x.id)
    (hav : ∀ x, x.available = true → (f x).available = true) :
    sock_step_safe P t u := by
  intro r hr hrav q hq hidq
  rw [hu] at hq
  rcases List.mem_map.mp hq with ⟨x, hx, rfl⟩
  have hxr : x = r := id_mem_unique hp hx (List.take_subset _ _ hr)
    (by rw [← hidq, hid x])
  subst hxr
  exact hav x hrav

/-- Marking one row unavailable is priority-safe when the targeted row is
not among the first `P` rows. -/
theorem step_safe_mark_unavailable {P : Nat} {t u : SockDb} {sel : SockRow}
    (hp : t.rows.Pairwise (fun a b => a.id < b.id))
    (hn : (t.rows.map (·.username)).Nodup)
    (hselmem : sel ∈ t.rows) (hsel : sel ∉ t.rows.take P) (exp now : Nat)
    (hu : u.rows = mark_unavailable t.rows sel.username sel.password exp now) :
    sock_step_safe P t u := by
  intro r hr hrav q hq hid
  rw [hu] at hq
  unfold mark_unavailable at hq
  rcases List.mem_map.mp hq with ⟨x, hx, rfl⟩
  have hidx : (if x.username = sel.username && x.password = sel.password then
      { x with available := false, expires_at := exp, updated := now }
      else x).id = x.id := by
    split <;> rfl
  have hxr : x = r := id_mem_unique hp hx (List.take_subset _ _ hr)
    (by rw [← hid, hidx])
  subst hxr
  by_cases hmatch : x.username = sel.username
  · have : x = sel := username_mem_unique hn hx hselmem hmatch
    subst this
    exact absurd hr hsel
  · simp only [hmatch, Bool.false_and, decide_eq_true_eq]
    rw [if_neg (by simp [hmatch])]
    exact hrav

/-- `getLastD` distributes over list append. -/
theorem getLastD_append_eq {α : Type} (ys : List α) :
    ∀ (xs : List α) (t : α), (xs ++ ys).getLastD t = ys.getLastD (xs.getLastD t) := by
  intro xs
  induction xs with
  | nil => intro t; rfl
  | cons x xs ih =>
    intro t
    rw [List.cons_append, List.getLastD_cons, List.getLastD_cons, ih]

/-- Priority-safety composes along concatenated traces. -/
theorem sock_trace_safe_append (P : Nat) :
    ∀ (xs ys : List SockDb) (t : SockDb), sock_trace_safe P t xs →
      sock_trace_safe P (xs.getLastD t) ys → sock_trace_safe P t (xs ++ ys) := by
  intro xs
  induction xs with
  | nil => intro ys t _ h2; exact h2
  | cons x xs ih =>
    intro ys t h1 h2
    rw [List.getLastD_cons] at h2
    exact ⟨h1.1, ih ys x h1.2 h2⟩

/-- Mapping rows while preserving id and username keeps the table
well-formed. -/
theorem wf_of_map {db : SockDb} (f : SockRow → SockRow)
    (hid : ∀ x, (f x).id = x.id) (hun : ∀ x, (f x).username = x.username)
    (h : SockDbWf db) : SockDbWf ⟨db.rows.map f, db.next_id⟩ := by
  obtain ⟨hp, hlt, hn⟩ := h
  refine ⟨?_, ?_, ?_⟩
  · rw [List.pairwise_map]
    exact hp.imp (fun {a b} hab => by rw [hid, hid]; exact hab)
  · intro r hr
    rcases List.mem_map.mp hr with ⟨x, hx, rfl⟩
    rw [hid]
    exact hlt x hx
  · rw [List.map_map]
    have : ((fun r => r.username) ∘ f) = fun r : SockRow => r.username := by
      funext x
      exact hun x
    rw [this]
    exact hn

/-- Deleting rows keeps the table well-formed. -/
theorem wf_of_filter {db : SockDb} (q : SockRow → Bool)
    (h : SockDbWf db) : SockDbWf ⟨db.rows.filter q, db.next_id⟩ := by
  obtain ⟨hp, hlt, hn⟩ := h
  refine ⟨hp.sublist (List.filter_sublist _), ?_, ?_⟩
  · intro r hr
    exact hlt r (List.mem_filter.mp hr).1
  · exact List.Nodup.sublist (List.Sublist.map _ (List.filter_sublist _)) hn

/-- The upsert keeps the table well-formed. -/
theorem wf_upsert_sock {db : SockDb} (s : Sock) (now : Nat)
    (h : SockDbWf db) : SockDbWf (upsert_sock db s now) := by
  obtain ⟨hp, hlt, hn⟩ := h
  unfold upsert_sock
  by_cases hc : db.rows.any (·.username = s.username)
  · rw [if_pos hc]
    exact wf_of_map _ (fun x => by split <;> rfl) (fun x => by split <;> rfl)
      ⟨hp, hlt, hn⟩
  · rw [if_neg hc]
    refine ⟨?_, ?_, ?_⟩
    · rw [List.pairwise_append]
      refine ⟨hp, List.pairwise_singleton _ _, ?_⟩
      intro a ha b hb
      simp only [List.mem_singleton] at hb
      subst hb
      exact hlt a ha
    · intro r hr
      rcases List.mem_append.mp hr with hr | hr
      · have := hlt r hr
        dsimp only
        omega
      · simp only [List.mem_singleton] at hr
        subst hr
        dsimp only
        omega
    · rw [List.map_append, List.nodup_append]
      refine ⟨hn, by simp, ?_⟩
      intro u hu hu2
      simp only [List.map_cons, List.map_nil, List.mem_singleton] at hu2
      subst hu2
      rcases List.mem_map.mp hu with ⟨x, hx, hxu⟩
      exact absurd (List.any_eq_true.mpr ⟨x, hx, by simpa using hxu⟩) hc

/-- The upsert never decreases the serial counter. -/
theorem upsert_sock_next_id_le (db : SockDb) (s : Sock) (now : Nat) :
    db.next_id ≤ (upsert_sock db s now).next_id := by
  unfold upsert_sock
  split
  · exact Nat.le_refl _
  · exact Nat.le_succ _

/-- The upsert fold keeps the table well-formed. -/
theorem wf_foldl_upsert (l : List Sock) :
    ∀ (db : SockDb) (now : Nat), SockDbWf db →
      SockDbWf (l.foldl (fun d s => upsert_sock d s now) db) := by
  induction l with
  | nil => intro db now h; exact h
  | cons s l ih =>
    intro db now h
    rw [List.foldl_cons]
    exact ih _ now (wf_upsert_sock s now h)

/-- The upsert fold never decreases the serial counter. -/
theorem foldl_upsert_next_id_le (l : List Sock) :
    ∀ (db : SockDb) (now : Nat),
      db.next_id ≤ (l.foldl (fun d s => upsert_sock d s now) db).next_id := by
  induction l with
  | nil => intro db now; exact Nat.le_refl _
  | cons s l ih =>
    intro db now
    rw [List.foldl_cons]
    exact le_trans (upsert_sock_next_id_le db s now) (ih _ now)

/-- Every row after one upsert either descends from an input row with the
same id, username, availability and expiry, or is a freshly inserted row
with id at least the old serial counter. -/
theorem upsert_sock_row_origin (db : SockDb) (s : Sock) (now : Nat)
    (q : SockRow) (hq : q ∈ (upsert_sock db s now).rows) :
    (∃ x ∈ db.rows, q.id = x.id ∧ q.username = x.username ∧
      q.available = x.available ∧ q.expires_at = x.expires_at) ∨
    db.next_id ≤ q.id := by
  unfold upsert_sock at hq
  by_cases hc : db.rows.any (·.username = s.username)
  · rw [if_pos hc] at hq
    rcases List.mem_map.mp hq with ⟨x, hx, rfl⟩
    left
    refine ⟨x, hx, ?_⟩
    split <;> exact ⟨rfl, rfl, rfl, rfl⟩
  · rw [if_neg hc] at hq
    rcases List.mem_append.mp hq with hq | hq
    · left
      exact ⟨q, hq, rfl, rfl, rfl, rfl⟩
    · right
      simp only [List.mem_singleton] at hq
      subst hq
      exact Nat.le_refl _

/-- Every row after the upsert fold either descends from an input row or is
fresh. -/
theorem foldl_upsert_row_origin (l : List Sock) :
    ∀ (db : SockDb) (now : Nat) (q : SockRow),
      q ∈ (l.foldl (fun d s => upsert_sock d s now) db).rows →
      (∃ x ∈ db.rows, q.id = x.id ∧ q.username = x.username ∧
        q.available = x.available ∧ q.expires_at = x.expires_at) ∨
      db.next_id ≤ q.id := by
  induction l with
  | nil =>
    intro db now q hq
    exact Or.inl ⟨q, hq, rfl, rfl, rfl, rfl⟩
  | cons s l ih =>
    intro db now q hq
    rw [List.foldl_cons] at hq
    rcases ih (upsert_sock db s now) now q hq with ⟨x, hx, h1, h2, h3, h4⟩ | hfresh
    · rcases upsert_sock_row_origin db s now x hx with ⟨y, hy, g1, g2, g3, g4⟩ | hfresh
      · exact Or.inl ⟨y, hy, h1.trans g1, h2.trans g2, h3.trans g3, h4.trans g4⟩
      · right
        omega
    · right
      exact le_trans (upsert_sock_next_id_le db s now) hfresh

/-- A selected standard row is a member of the table. -/
theorem standard_select_mem {rows : List SockRow} {P : Nat} {r : SockRow}
    (h : standard_select rows P = some r) : r ∈ rows := by
  unfold standard_select at h
  have hmem : r ∈ (available_rows rows).drop P := by
    cases hl : (available_rows rows).drop P with
    | nil => rw [hl] at h; cases h
    | cons x xs =>
      rw [hl] at h
      simp only [List.head?_cons, Option.some.injEq] at h
      rw [← h]
      exact List.mem_cons_self x xs
  exact (List.filter_sublist rows).subset (List.drop_subset _ _ hmem)

/-- The whole `write_socks` call is priority-safe from its starting table,
keeps the table well-formed, and ends at the last snapshot. -/
theorem write_socks_safe (P : Nat) (db : SockDb) (S : List Sock) (now : Nat)
    (hwf : SockDbWf db) :
    sock_trace_safe P db (write_socks db S now).2 ∧
    SockDbWf (write_socks db S now).1 ∧
    (write_socks db S now).1 = ((write_socks db S now).2).getLastD db := by
  obtain ⟨hp, hlt, hn⟩ := hwf
  by_cases hS : S.isEmpty
  · unfold write_socks
    rw [if_pos hS]
    refine ⟨⟨?_, trivial⟩, ⟨by simp, by simp, by simp⟩, rfl⟩
    intro r _ _ q hq
    simp at hq
  · unfold write_socks
    rw [if_neg hS]
    dsimp only
    have hwf1 : SockDbWf ((js_unique_by_username S).foldl
        (fun d s => upsert_sock d s now) db) :=
      wf_foldl_upsert _ db now ⟨hp, hlt, hn⟩
    have hstep1 : sock_step_safe P db ((js_unique_by_username S).foldl
        (fun d s => upsert_sock d s now) db) := by
      intro r hr hrav q hq hid
      rcases foldl_upsert_row_origin _ db now q hq with ⟨x, hx, h1, h2, h3, h4⟩ | hfresh
      · have hxr : x = r := id_mem_unique hp hx (List.take_subset _ _ hr)
          (by rw [← h1, hid])
        rw [h3, hxr]
        exact hrav
      · have := hlt r (List.take_subset _ _ hr)
        omega
    have hstep2 : sock_step_safe P
        ((js_unique_by_username S).foldl (fun d s => upsert_sock d s now) db)
        ⟨((js_unique_by_username S).foldl (fun d s => upsert_sock d s now)
            db).rows.filter
          (fun r => ((js_unique_by_username S).map (·.username)).contains
            r.username),
          ((js_unique_by_username S).foldl (fun d s => upsert_sock d s now)
            db).next_id⟩ :=
      step_safe_of_subset hwf1.1 (fun q hq => (List.mem_filter.mp hq).1)
    exact ⟨⟨hstep1, hstep2, trivial⟩, wf_of_filter _ hwf1, rfl⟩

/-- The delete step of the cleanup is a subset transition preserving
well-formedness. -/
theorem cleanup_delete_step_props (db : SockDb) (errored : List String)
    (hwf : SockDbWf db) :
    (∀ q ∈ (cleanup_delete_step db errored).rows, q ∈ db.rows) ∧
    SockDbWf (cleanup_delete_step db errored) := by
  unfold cleanup_delete_step
  split
  · exact ⟨fun q hq => hq, hwf⟩
  · exact ⟨fun q hq => (List.mem_filter.mp hq).1, wf_of_filter _ hwf⟩

/-- The refresh step of the cleanup maps rows preserving id, username and
availability (it only ever *sets* `available` to true). -/
theorem cleanup_refresh_step_props (P : Nat) (db : SockDb)
    (regenerated : List (String × String)) (now : Nat) (hwf : SockDbWf db) :
    sock_step_safe P db (cleanup_refresh_step db regenerated now) ∧
    SockDbWf (cleanup_refresh_step db regenerated now) := by
  constructor
  · exact step_safe_of_map hwf.1 _ rfl (fun x => by split <;> rfl)
      (fun x hx => by split <;> first | rfl | exact hx)
  · exact wf_of_map _ (fun x => by split <;> rfl) (fun x => by split <;> rfl) hwf

/-- The whole `cleanup_expired_dante_socks5_configs` call is priority-safe,
keeps the table well-formed, and ends at the last snapshot. -/
theorem cleanup_socks_safe (P : Nat) (db : SockDb) (now : Nat)
    (regen : String → Option String) (hwf : SockDbWf db) :
    sock_trace_safe P db (cleanup_expired_dante_socks5_configs db now regen).2 ∧
    SockDbWf (cleanup_expired_dante_socks5_configs db now regen).1 ∧
    (cleanup_expired_dante_socks5_configs db now regen).1 =
      ((cleanup_expired_dante_socks5_configs db now regen).2).getLastD db := by
  unfold cleanup_expired_dante_socks5_configs
  dsimp only
  set expired := db.rows.filter (fun r => 0 < r.expires_at && r.expires_at ≤ now)
  set errored := (expired.filter (fun r => (regen r.username).isNone)).map (·.username)
  set regenerated := expired.filterMap
    (fun r => (regen r.username).map (fun pw => (r.username, pw)))
  obtain ⟨hdel_sub, hdel_wf⟩ := cleanup_delete_step_props db errored hwf
  have hstep1 : sock_step_safe P db (cleanup_delete_step db errored) :=
    step_safe_of_subset hwf.1 hdel_sub
  obtain ⟨hstep2, href_wf⟩ := cleanup_refresh_step_props P
    (cleanup_delete_step db errored) regenerated now hdel_wf
  split
  · exact ⟨⟨hstep1, trivial⟩, hdel_wf, rfl⟩
  · exact ⟨⟨hstep1, hstep2, trivial⟩, href_wf, rfl⟩

/-- The priority branch of `get_socks5_config` is priority-safe, keeps the
table well-formed, and ends at the last snapshot. -/
theorem priority_branch_safe (P : Nat) (db : SockDb)
    (exp now pick : Nat) (t_ok : Bool) (rg : Option String)
    (hwf : SockDbWf db) :
    sock_trace_safe P db
      (get_socks5_config_priority db exp now P pick t_ok rg).2.2 ∧
    SockDbWf (get_socks5_config_priority db exp now P pick t_ok rg).2.1 ∧
    (get_socks5_config_priority db exp now P pick t_ok rg).2.1 =
      ((get_socks5_config_priority db exp now P pick t_ok rg).2.2).getLastD db := by
  unfold get_socks5_config_priority
  dsimp only
  cases hget : (priority_select db.rows P).get?
      (pick % (priority_select db.rows P).length) with
  | none => exact ⟨trivial, hwf, rfl⟩
  | some sock =>
    dsimp only
    split
    · exact ⟨trivial, hwf, rfl⟩
    · have hstep : sock_step_safe P db
          ⟨update_priority_expiry db.rows sock.username exp now, db.next_id⟩ :=
        step_safe_of_map hwf.1 _ rfl
          (fun x => by split <;> rfl)
          (fun x hx => by split <;> exact hx)
      have hwf2 : SockDbWf
          ⟨update_priority_expiry db.rows sock.username exp now, db.next_id⟩ :=
        wf_of_map _ (fun x => by split <;> rfl)
          (fun x => by split <;> rfl) hwf
      exact ⟨⟨hstep, trivial⟩, hwf2, rfl⟩

/-- The standard-path while loop is priority-safe from its starting table,
ends well-formed, and — when it finds a sock — that sock is the row the
final table's standard selection yields (the loop returns as soon as the
selection tests fine, performing no further writes). -/
theorem standard_loop_safe (P now : Nat) (ors : StandardOracles) :
    ∀ (fuel : Nat) (db : SockDb) (attempt : Nat), SockDbWf db →
      sock_trace_safe P db (standard_loop P now ors fuel db attempt).2 ∧
      SockDbWf (((standard_loop P now ors fuel db attempt).2).getLastD db) ∧
      (∀ sock, (standard_loop P now ors fuel db attempt).1 = some sock →
        standard_select
          ((((standard_loop P now ors fuel db attempt).2).getLastD db).rows)
          P = some sock) := by
  intro fuel
  induction fuel with
  | zero =>
    intro db attempt hwf
    exact ⟨trivial, hwf, fun sock h => by cases h⟩
  | succ fuel ih =>
    intro db attempt hwf
    unfold standard_loop
    cases hsel : standard_select db.rows P with
    | none =>
      dsimp only
      obtain ⟨hcl_safe, hcl_wf, hcl_last⟩ :=
        cleanup_socks_safe P db now (ors.regen attempt) hwf
      obtain ⟨hrec_safe, hrec_wf, hrec_sel⟩ := ih
        (cleanup_expired_dante_socks5_configs db now (ors.regen attempt)).1
        (attempt + 1) hcl_wf
      have hlast : ((cleanup_expired_dante_socks5_configs db now
            (ors.regen attempt)).2 ++
          (standard_loop P now ors fuel
            (cleanup_expired_dante_socks5_configs db now (ors.regen attempt)).1
            (attempt + 1)).2).getLastD db =
          ((standard_loop P now ors fuel
            (cleanup_expired_dante_socks5_configs db now (ors.regen attempt)).1
            (attempt + 1)).2).getLastD
            (cleanup_expired_dante_socks5_configs db now (ors.regen attempt)).1 := by
        rw [getLastD_append_eq, ← hcl_last]
      refine ⟨?_, ?_, ?_⟩
      · apply sock_trace_safe_append P _ _ _ hcl_safe
        rw [← hcl_last]
        exact hrec_safe
      · rw [hlast]
        exact hrec_wf
      · intro sock hs
        rw [hlast]
        exact hrec_sel sock hs
    | some available_sock =>
      dsimp only
      by_cases htest : ors.test attempt available_sock
      · rw [if_pos htest]
        exact ⟨trivial, hwf, fun sock h => by
          simp only [Option.some.injEq] at h
          rw [← h]
          exact hsel⟩
      · rw [if_neg htest]
        dsimp only
        have hselmem : available_sock ∈ db.rows := standard_select_mem hsel
        have hseltake : available_sock ∉ db.rows.take P :=
          standard_select_not_mem_take hwf.1 hsel
        have hstep1 : sock_step_safe P db
            ⟨mark_unavailable db.rows available_sock.username
              available_sock.password now now, db.next_id⟩ :=
          step_safe_mark_unavailable hwf.1 hwf.2.2 hselmem hseltake now now rfl
        have hwf1 : SockDbWf
            ⟨mark_unavailable db.rows available_sock.username
              available_sock.password now now, db.next_id⟩ :=
          wf_of_map _
            (fun x => by split <;> rfl)
            (fun x => by split <;> rfl) hwf
        obtain ⟨hws_safe, hws_wf, hws_last⟩ := write_socks_safe P
          ⟨mark_unavailable db.rows available_sock.username
            available_sock.password now now, db.next_id⟩
          (ors.disk attempt) now hwf1
        obtain ⟨hrec_safe, hrec_wf, hrec_sel⟩ := ih
          (write_socks ⟨mark_unavailable db.rows available_sock.username
            available_sock.password now now, db.next_id⟩ (ors.disk attempt) now).1
          (attempt + 1) hws_wf
        have hlast : (((⟨mark_unavailable db.rows available_sock.username
              available_sock.password now now, db.next_id⟩ : SockDb) ::
            ((write_socks ⟨mark_unavailable db.rows available_sock.username
              available_sock.password now now, db.next_id⟩
                (ors.disk attempt) now).2 ++
             (standard_loop P now ors fuel
               (write_socks ⟨mark_unavailable db.rows available_sock.username
                 available_sock.password now now, db.next_id⟩
                   (ors.disk attempt) now).1 (attempt + 1)).2)).getLastD db) =
            ((standard_loop P now ors fuel
               (write_socks ⟨mark_unavailable db.rows available_sock.username
                 available_sock.password now now, db.next_id⟩
                   (ors.disk attempt) now).1 (attempt + 1)).2).getLastD
              (write_socks ⟨mark_unavailable db.rows available_sock.username
                available_sock.password now now, db.next_id⟩
                  (ors.disk attempt) now).1 := by
          rw [List.getLastD_cons, getLastD_append_eq, ← hws_last]
        refine ⟨?_, ?_, ?_⟩
        · refine ⟨hstep1, ?_⟩
          apply sock_trace_safe_append P _ _ _ hws_safe
          rw [← hws_last]
          exact hrec_safe
        · rw [hlast]
          exact hrec_wf
        · intro sock hs
          rw [hlast]
          exact hrec_sel sock hs

/-- The standard branch of `get_socks5_config` is priority-safe, keeps the
table well-formed, and ends at the last snapshot.  The final exclusive-lease
update targets the row the loop selected, which is never among the first
`P` rows of the table it was selected from. -/
theorem standard_branch_safe (P : Nat) (db : SockDb) (exp now : Nat)
    (ors : StandardOracles) (hwf : SockDbWf db) :
    sock_trace_safe P db (get_socks5_config_standard db exp now P ors).2.2 ∧
    SockDbWf (get_socks5_config_standard db exp now P ors).2.1 ∧
    (get_socks5_config_standard db exp now P ors).2.1 =
      ((get_socks5_config_standard db exp now P ors).2.2).getLastD db := by
  unfold get_socks5_config_standard
  dsimp only
  obtain ⟨hloop_safe, hloop_wf, hloop_sel⟩ := standard_loop_safe P now ors
    (count_available_socks db.rows P) db 0 hwf
  cases hres : (standard_loop P now ors
      (count_available_socks db.rows P) db 0).1 with
  | none => exact ⟨hloop_safe, hloop_wf, rfl⟩
  | some sock =>
    dsimp only
    have hsel := hloop_sel sock hres
    set dbf := ((standard_loop P now ors
      (count_available_socks db.rows P) db 0).2).getLastD db with hdbf
    have hselmem : sock ∈ dbf.rows := standard_select_mem hsel
    have hseltake : sock ∉ dbf.rows.take P :=
      standard_select_not_mem_take hloop_wf.1 hsel
    have hstep : sock_step_safe P dbf
        ⟨mark_unavailable dbf.rows sock.username sock.password exp now,
          dbf.next_id⟩ :=
      step_safe_mark_unavailable hloop_wf.1 hloop_wf.2.2 hselmem hseltake
        exp now rfl
    have hwf2 : SockDbWf
        ⟨mark_unavailable dbf.rows sock.username sock.password exp now,
          dbf.next_id⟩ :=
      wf_of_map _ (fun x => by split <;> rfl) (fun x => by split <;> rfl)
        hloop_wf
    refine ⟨?_, hwf2, ?_⟩
    · exact sock_trace_safe_append P _ _ _ hloop_safe ⟨hstep, trivial⟩
    · rw [getLastD_append_eq]
      rfl

/-- Any single lease-store operation is priority-safe, keeps the table
well-formed, and ends at its last snapshot. -/
theorem run_sock_op_safe (P : Nat) (db : SockDb) (op : SockOp)
    (hwf : SockDbWf db) :
    sock_trace_safe P db (run_sock_op P db op).2 ∧
    SockDbWf (run_sock_op P db op).1 ∧
    (run_sock_op P db op).1 = ((run_sock_op P db op).2).getLastD db := by
  cases op with
  | priority exp now pick t_ok rg =>
    exact priority_branch_safe P db exp now pick t_ok rg hwf
  | standard exp now ors =>
    exact standard_branch_safe P db exp now ors hwf
  | cleanup now regen =>
    exact cleanup_socks_safe P db now regen hwf

/-- Any sequence of lease-store operations is priority-safe and keeps the
table well-formed. -/
theorem run_sock_ops_safe (P : Nat) :
    ∀ (ops : List SockOp) (db : SockDb), SockDbWf db →
      sock_trace_safe P db (run_sock_ops P db ops).2 ∧
      SockDbWf (run_sock_ops P db ops).1 := by
  intro ops
  induction ops with
  | nil => intro db hwf; exact ⟨trivial, hwf⟩
  | cons op ops ih =>
    intro db hwf
    unfold run_sock_ops
    dsimp only
    obtain ⟨hop_safe, hop_wf, hop_last⟩ := run_sock_op_safe P db op hwf
    obtain ⟨hrest_safe, hrest_wf⟩ := ih (run_sock_op P db op).1 hop_wf
    refine ⟨?_, hrest_wf⟩
    apply sock_trace_safe_append P _ _ _ hop_safe
    rw [← hop_last]
    exact hrest_safe

/-- A list is pointwise related to its image under a map. -/
theorem forall2_map_self {α : Type} {R : α → α → Prop} (f : α → α)
    (h : ∀ x, R x (f x)) : ∀ l : List α, List.Forall₂ R l (l.map f) := by
  intro l
  induction l with
  | nil => exact List.Forall₂.nil
  | cons x l ih => exact List.Forall₂.cons (h x) ih

/-- A list is pointwise related to itself by a reflexive relation. -/
theorem forall2_self {α : Type} {R : α → α → Prop}
    (h : ∀ x, R x x) : ∀ l : List α, List.Forall₂ R l l := by
  intro l
  induction l with
  | nil => exact List.Forall₂.nil
  | cons x l ih => exact List.Forall₂.cons (h x) ih

/-- C4: over any sequence of lease-store operations — `get_socks5_config`
in priority or standard mode and `cleanup_expired_dante_socks5_configs`,
with any oracle outcomes — no transition of the snapshot trace marks a row
of the current priority pool (the first `P = priority_slots` rows by
ascending id) unavailable; moreover the priority branch leaves every row's
`id, username, ip_address, port, password` and `available` columns intact,
touching only `expires_at` and `updated`. -/
theorem C4_priority_pool_never_unavailable (P : Nat) (db : SockDb)
    (ops : List SockOp) (hwf : SockDbWf db) :
    sock_trace_safe P db (run_sock_ops P db ops).2 ∧
    (∀ exp now pick t_ok rg,
      List.Forall₂ (fun r q => q.id = r.id ∧ q.username = r.username ∧
          q.ip_address = r.ip_address ∧ q.port = r.port ∧
          q.password = r.password ∧ q.available = r.available)
        db.rows
        ((run_sock_op P db (SockOp.priority exp now pick t_ok rg)).1).rows) := by
  refine ⟨(run_sock_ops_safe P ops db hwf).1, ?_⟩
  intro exp now pick t_ok rg
  show List.Forall₂ _ db.rows
    ((get_socks5_config_priority db exp now P pick t_ok rg).2.1).rows
  unfold get_socks5_config_priority
  dsimp only
  cases hget : (priority_select db.rows P).get?
      (pick % (priority_select db.rows P).length) with
  | none => exact forall2_self (fun x => ⟨rfl, rfl, rfl, rfl, rfl, rfl⟩) db.rows
  | some sock =>
    dsimp only
    split
    · exact forall2_self (fun x => ⟨rfl, rfl, rfl, rfl, rfl, rfl⟩) db.rows
    · exact forall2_map_self _ (fun x => by split <;>
        exact ⟨rfl, rfl, rfl, rfl, rfl, rfl⟩) db.rows

/-- Witness for C4 on a concrete two-row table with `P = 1` and a sequence
of one standard lease, one cleanup and one priority lease. -/
theorem C4_priority_pool_never_unavailable_witness :
    SockDbWf ⟨[⟨1, "h", 9, "u1", "p1", true, 0, 0⟩,
      ⟨2, "h", 9, "u2", "p2", true, 3, 0⟩], 3⟩ ∧
    (sock_trace_safe 1 ⟨[⟨1, "h", 9, "u1", "p1", true, 0, 0⟩,
        ⟨2, "h", 9, "u2", "p2", true, 3, 0⟩], 3⟩
      (run_sock_ops 1 ⟨[⟨1, "h", 9, "u1", "p1", true, 0, 0⟩,
          ⟨2, "h", 9, "u2", "p2", true, 3, 0⟩], 3⟩
        [SockOp.standard 50 10 ⟨fun _ _ => true, fun _ _ => none, fun _ => []⟩,
         SockOp.cleanup 10 (fun _ => some "new"),
         SockOp.priority 99 10 0 true none]).2 ∧
    (∀ exp now pick t_ok rg,
      List.Forall₂ (fun r q => q.id = r.id ∧ q.username = r.username ∧
          q.ip_address = r.ip_address ∧ q.port = r.port ∧
          q.password = r.password ∧ q.available = r.available)
        ([⟨1, "h", 9, "u1", "p1", true, 0, 0⟩,
          ⟨2, "h", 9, "u2", "p2", true, 3, 0⟩] : List SockRow)
        ((run_sock_op 1 ⟨[⟨1, "h", 9, "u1", "p1", true, 0, 0⟩,
            ⟨2, "h", 9, "u2", "p2", true, 3, 0⟩], 3⟩
          (SockOp.priority exp now pick t_ok rg)).1).rows)) :=
  ⟨⟨by decide, by decide, by decide⟩,
    C4_priority_pool_never_unavailable 1
      ⟨[⟨1, "h", 9, "u1", "p1", true, 0, 0⟩,
        ⟨2, "h", 9, "u2", "p2", true, 3, 0⟩], 3⟩
      [SockOp.standard 50 10 ⟨fun _ _ => true, fun _ _ => none, fun _ => []⟩,
       SockOp.cleanup 10 (fun _ => some "new"),
       SockOp.priority 99 10 0 true none]
      ⟨by decide, by decide, by decide⟩⟩

/-! ## Claim C2 — rollback of `replace_wireguard_config` -/

/-- After `wg set` re-adds a peer, the interface's entry under that key is
exactly the added one. -/
theorem iface_find_set (ps : List IfacePeer) (k psk al : String) :
    iface_find (iface_set ps k psk al) k = some ⟨k, psk, al⟩ := by
  unfold iface_find iface_set
  rw [List.find?_append]
  have h1 : (iface_remove ps k).find? (fun p => p.public_key = k) = none := by
    rw [List.find?_eq_none]
    intro p hp
    rcases List.mem_filter.mp hp with ⟨_, hcond⟩
    simpa using hcond
  rw [h1]
  simp

/-- C2: whichever awaited step of `replace_wireguard_config` throws, the
call returns `{ success: false }` and the rollback restores the client
conf, the three key files, the server conf and the running interface's
entry under the old public key, leaving the `worker_wireguard_configs` row
untouched; on success it returns `{ success: true, new_keys }` and the
lease row for `peer_id` has been deleted.  Hypotheses: the key files are
non-empty (real WireGuard keys) and the interface entry under the old
public key is consistent with the on-disk artifacts (the invariant of
§4.2 the rollback re-establishes it from). -/
theorem C2_replace_wireguard_config_rollback (st : WgPeerState)
    (peer_id : Nat) (ks : WgKeys) (fail_at : Option Nat)
    (hpriv : st.privatekey_file ≠ "") (hpub : st.publickey_file ≠ "")
    (hpsk : st.presharedkey_file ≠ "")
    (hiface : ∀ conf, st.client_conf = some conf →
      ∀ ip, conf.address = some ip →
        iface_find st.iface st.publickey_file =
          some ⟨st.publickey_file, st.presharedkey_file, cidr_of ip⟩) :
    ((replace_wireguard_config st peer_id ks fail_at).1.success = false →
      ((replace_wireguard_config st peer_id ks fail_at).2.client_conf =
          st.client_conf ∧
        (replace_wireguard_config st peer_id ks fail_at).2.privatekey_file =
          st.privatekey_file ∧
        (replace_wireguard_config st peer_id ks fail_at).2.publickey_file =
          st.publickey_file ∧
        (replace_wireguard_config st peer_id ks fail_at).2.presharedkey_file =
          st.presharedkey_file ∧
        (replace_wireguard_config st peer_id ks fail_at).2.server_conf =
          st.server_conf ∧
        iface_find (replace_wireguard_config st peer_id ks fail_at).2.iface
            st.publickey_file =
          iface_find st.iface st.publickey_file ∧
        (replace_wireguard_config st peer_id ks fail_at).2.db = st.db)) ∧
    ((replace_wireguard_config st peer_id ks fail_at).1.success = true →
      ((replace_wireguard_config st peer_id ks fail_at).1.new_keys = some ks ∧
        (replace_wireguard_config st peer_id ks fail_at).2.db =
          mark_config_as_free st.db peer_id ∧
        wg_has_id (replace_wireguard_config st peer_id ks fail_at).2.db
          peer_id = false)) := by
  by_cases h0 : fail_at = some 0
  · simp [replace_wireguard_config, run_replace_main, replace_rollback, h0]
  rcases hcc : st.client_conf with _ | conf
  · simp [replace_wireguard_config, run_replace_main, replace_rollback, h0, hcc]
  rcases haddr : conf.address with _ | ip
  · simp [replace_wireguard_config, run_replace_main, replace_rollback, h0,
      hcc, haddr]
  by_cases hip : ip = ""
  · simp [replace_wireguard_config, run_replace_main, replace_rollback, h0,
      hcc, haddr, hip]
  by_cases h1 : fail_at = some 1
  · simp [replace_wireguard_config, run_replace_main, replace_rollback, h0,
      hcc, haddr, hip, h1]
  by_cases h2 : fail_at = some 2
  · simp [replace_wireguard_config, run_replace_main, replace_rollback, h0,
      hcc, haddr, hip, h1, h2, hpriv]
  by_cases h3 : fail_at = some 3
  · simp [replace_wireguard_config, run_replace_main, replace_rollback, h0,
      hcc, haddr, hip, h1, h2, h3, hpriv, hpub]
  by_cases h4 : fail_at = some 4
  · simp [replace_wireguard_config, run_replace_main, replace_rollback, h0,
      hcc, haddr, hip, h1, h2, h3, h4, hpriv, hpub, hpsk]
  by_cases h5 : fail_at = some 5
  · simp [replace_wireguard_config, run_replace_main, replace_rollback, h0,
      hcc, haddr, hip, h1, h2, h3, h4, h5, hpriv, hpub, hpsk]
  by_cases hks : ks.private_key = "" ∨ ks.public_key = "" ∨ ks.preshared_key = ""
  · simp [replace_wireguard_config, run_replace_main, replace_rollback, h0,
      hcc, haddr, hip, h1, h2, h3, h4, h5, hks, hpriv, hpub, hpsk]
  by_cases h6 : fail_at = some 6
  · simp [replace_wireguard_config, run_replace_main, replace_rollback, h0,
      hcc, haddr, hip, h1, h2, h3, h4, h5, hks, h6, hpriv, hpub, hpsk]
  by_cases h7 : fail_at = some 7
  · simp [replace_wireguard_config, run_replace_main, replace_rollback, h0,
      hcc, haddr, hip, h1, h2, h3, h4, h5, hks, h6, h7, hpriv, hpub, hpsk]
  by_cases h8 : fail_at = some 8
  · simp [replace_wireguard_config, run_replace_main, replace_rollback, h0,
      hcc, haddr, hip, h1, h2, h3, h4, h5, hks, h6, h7, h8, hpriv, hpub, hpsk]
  by_cases h9 : fail_at = some 9
  · simp [replace_wireguard_config, run_replace_main, replace_rollback, h0,
      hcc, haddr, hip, h1, h2, h3, h4, h5, hks, h6, h7, h8, h9, hpriv, hpub,
      hpsk]
  by_cases h10 : fail_at = some 10
  · simp [replace_wireguard_config, run_replace_main, replace_rollback, h0,
      hcc, haddr, hip, h1, h2, h3, h4, h5, hks, h6, h7, h8, h9, h10, hpriv,
      hpub, hpsk]
  by_cases h11 : fail_at = some 11
  · simp [replace_wireguard_config, run_replace_main, run_replace_after_remove,
      replace_rollback, h0, hcc, haddr, hip, h1, h2, h3, h4, h5, hks, h6, h7,
      h8, h9, h10, h11, hpriv, hpub, hpsk, iface_find_set,
      hiface conf hcc ip haddr]
  by_cases hsc : st.server_conf = ""
  · simp [replace_wireguard_config, run_replace_main, run_replace_after_remove,
      replace_rollback, h0, hcc, haddr, hip, h1, h2, h3, h4, h5, hks, h6, h7,
      h8, h9, h10, h11, hsc, hpriv, hpub, hpsk, iface_find_set,
      hiface conf hcc ip haddr]
  by_cases h12 : fail_at = some 12
  · simp [replace_wireguard_config, run_replace_main, run_replace_after_remove,
      replace_rollback, h0, hcc, haddr, hip, h1, h2, h3, h4, h5, hks, h6, h7,
      h8, h9, h10, h11, hsc, h12, hpriv, hpub, hpsk, iface_find_set,
      hiface conf hcc ip haddr]
  · simp [replace_wireguard_config, run_replace_main, run_replace_after_remove,
      h0, hcc, haddr, hip, h1, h2, h3, h4, h5, hks, h6, h7, h8, h9, h10, h11,
      hsc, h12, hpriv, hpub, hpsk, wg_has_id_mark_config_as_free]

/-- Witness for C2: a concrete one-peer state with a failure injected at
the step that removes the old interface peer; the call reports failure and
every snapshotted artifact, the interface entry under the old public key
and the lease row are restored. -/
theorem C2_replace_wireguard_config_rollback_witness :
    ((replace_wireguard_config
        ⟨some ⟨some "10.13.13.2", "privA", "pskA", "rest"⟩, "privS", "pubS",
          "pskS", "serverconf", [⟨"pubS", "pskS", cidr_of "10.13.13.2"⟩],
          [⟨5, 99, 0⟩]⟩
        5 ⟨"privN", "pubN", "pskN"⟩ (some 11)).1.success = false →
      ((replace_wireguard_config
        ⟨some ⟨some "10.13.13.2", "privA", "pskA", "rest"⟩, "privS", "pubS",
          "pskS", "serverconf", [⟨"pubS", "pskS", cidr_of "10.13.13.2"⟩],
          [⟨5, 99, 0⟩]⟩
        5 ⟨"privN", "pubN", "pskN"⟩ (some 11)).2.client_conf =
          some ⟨some "10.13.13.2", "privA", "pskA", "rest"⟩ ∧
        (replace_wireguard_config
        ⟨some ⟨some "10.13.13.2", "privA", "pskA", "rest"⟩, "privS", "pubS",
          "pskS", "serverconf", [⟨"pubS", "pskS", cidr_of "10.13.13.2"⟩],
          [⟨5, 99, 0⟩]⟩
        5 ⟨"privN", "pubN", "pskN"⟩ (some 11)).2.privatekey_file = "privS" ∧
        (replace_wireguard_config
        ⟨some ⟨some "10.13.13.2", "privA", "pskA", "rest"⟩, "privS", "pubS",
          "pskS", "serverconf", [⟨"pubS", "pskS", cidr_of "10.13.13.2"⟩],
          [⟨5, 99, 0⟩]⟩
        5 ⟨"privN", "pubN", "pskN"⟩ (some 11)).2.publickey_file = "pubS" ∧
        (replace_wireguard_config
        ⟨some ⟨some "10.13.13.2", "privA", "pskA", "rest"⟩, "privS", "pubS",
          "pskS", "serverconf", [⟨"pubS", "pskS", cidr_of "10.13.13.2"⟩],
          [⟨5, 99, 0⟩]⟩
        5 ⟨"privN", "pubN", "pskN"⟩ (some 11)).2.presharedkey_file = "pskS" ∧
        (replace_wireguard_config
        ⟨some ⟨some "10.13.13.2", "privA", "pskA", "rest"⟩, "privS", "pubS",
          "pskS", "serverconf", [⟨"pubS", "pskS", cidr_of "10.13.13.2"⟩],
          [⟨5, 99, 0⟩]⟩
        5 ⟨"privN", "pubN", "pskN"⟩ (some 11)).2.server_conf = "serverconf" ∧
        iface_find (replace_wireguard_config
        ⟨some ⟨some "10.13.13.2", "privA", "pskA", "rest"⟩, "privS", "pubS",
          "pskS", "serverconf", [⟨"pubS", "pskS", cidr_of "10.13.13.2"⟩],
          [⟨5, 99, 0⟩]⟩
        5 ⟨"privN", "pubN", "pskN"⟩ (some 11)).2.iface "pubS" =
          iface_find [⟨"pubS", "pskS", cidr_of "10.13.13.2"⟩] "pubS" ∧
        (replace_wireguard_config
        ⟨some ⟨some "10.13.13.2", "privA", "pskA", "rest"⟩, "privS", "pubS",
          "pskS", "serverconf", [⟨"pubS", "pskS", cidr_of "10.13.13.2"⟩],
          [⟨5, 99, 0⟩]⟩
        5 ⟨"privN", "pubN", "pskN"⟩ (some 11)).2.db = [⟨5, 99, 0⟩])) ∧
    ((replace_wireguard_config
        ⟨some ⟨some "10.13.13.2", "privA", "pskA", "rest"⟩, "privS", "pubS",
          "pskS", "serverconf", [⟨"pubS", "pskS", cidr_of "10.13.13.2"⟩],
          [⟨5, 99, 0⟩]⟩
        5 ⟨"privN", "pubN", "pskN"⟩ (some 11)).1.success = true →
      ((replace_wireguard_config
        ⟨some ⟨some "10.13.13.2", "privA", "pskA", "rest"⟩, "privS", "pubS",
          "pskS", "serverconf", [⟨"pubS", "pskS", cidr_of "10.13.13.2"⟩],
          [⟨5, 99, 0⟩]⟩
        5 ⟨"privN", "pubN", "pskN"⟩ (some 11)).1.new_keys =
          some ⟨"privN", "pubN", "pskN"⟩ ∧
        (replace_wireguard_config
        ⟨some ⟨some "10.13.13.2", "privA", "pskA", "rest"⟩, "privS", "pubS",
          "pskS", "serverconf", [⟨"pubS", "pskS", cidr_of "10.13.13.2"⟩],
          [⟨5, 99, 0⟩]⟩
        5 ⟨"privN", "pubN", "pskN"⟩ (some 11)).2.db =
          mark_config_as_free [⟨5, 99, 0⟩] 5 ∧
        wg_has_id (replace_wireguard_config
        ⟨some ⟨some "10.13.13.2", "privA", "pskA", "rest"⟩, "privS", "pubS",
          "pskS", "serverconf", [⟨"pubS", "pskS", cidr_of "10.13.13.2"⟩],
          [⟨5, 99, 0⟩]⟩
        5 ⟨"privN", "pubN", "pskN"⟩ (some 11)).2.db 5 = false)) :=
  C2_replace_wireguard_config_rollback
    ⟨some ⟨some "10.13.13.2", "privA", "pskA", "rest"⟩, "privS", "pubS",
      "pskS", "serverconf", [⟨"pubS", "pskS", cidr_of "10.13.13.2"⟩],
      [⟨5, 99, 0⟩]⟩
    5 ⟨"privN", "pubN", "pskN"⟩ (some 11)
    (by decide) (by decide) (by decide)
    (by intro conf hconf ip hip
        simp only [Option.some.injEq] at hconf
        subst hconf
        simp only [Option.some.injEq] at hip
        subst hip
        rfl)

end TPN
